import Mathlib

/-!
# Task scheduler (`library/src/scheduler.c`, `library/include/scheduler.h`)

A shallow embedding of the round-robin task scheduler.  The module's file-level
statics (`task_list`, `task_scheduler_running`, `count_per_ms`) are collected in
one record that every operation receives and returns.  A function pointer is a
number (its address, `0` being the null pointer); what the pointed-to function
does to the scheduler is given by an environment `code`, and `task_dispatch`
returns, next to the new state, the list of calls it made.
-/

set_option maxRecDepth 100000

namespace Scheduler

/-! ## Data model -/

/-- Capacity of the task table: `#define MAX_TASKS 7`. -/
abbrev MAX_TASKS : Nat := 7

/-- Status of a task, `task_status_e` of `scheduler.h`. -/
inductive task_status_e
  | TASK_EMPTY
  | TASK_STOPPED
  | TASK_RUNNABLE
  | TASK_RUNNING
  | TASK_ERROR
  deriving DecidableEq, Repr

open task_status_e

/-- Numeric value of each enumerator (`TASK_EMPTY = 0`, ..., `TASK_ERROR = 99`). -/
def task_status_e.toNat : task_status_e → Nat
  | TASK_EMPTY => 0
  | TASK_STOPPED => 1
  | TASK_RUNNABLE => 2
  | TASK_RUNNING => 3
  | TASK_ERROR => 99

/-- Function pointer `void (*)(void)`: the address, `0` for the null pointer. -/
abbrev task_t := Nat

/-- One entry of the task table, `task_control_t` of `scheduler.c`. -/
structure task_control_t where
  /-- Task ID (`uint8_t`). -/
  id : Nat
  /-- Pointer to the task. -/
  task : task_t
  /-- Delay before execution (`uint32_t`). -/
  delay : Nat
  /-- Reload value of the delay (`uint32_t`). -/
  period : Nat
  /-- Status of the task. -/
  task_status : task_status_e
  deriving DecidableEq, Repr

/-! ## Floating point

`count_per_ms` and `time_calc` are `float`, the product in `task_add` is
computed in `double`.  The values that occur are never negative, so a value is
modelled by its magnitude: a finite value `x` is stored as the natural number
`x * 2^64` (fixed point; every binary32 or binary64 value the scheduler can
produce from a `uint16_t` clock and a `uint32_t` period is a multiple of
`2^-64`), next to `+inf` and NaN.  Arithmetic is IEEE-754 with
round-to-nearest-even, 24 significant bits for `float` and 53 for `double`.
-/

/-- Non-negative floating-point value: `fin n` stands for `n / 2^64`. -/
inductive float
  | fin (n : Nat)
  | inf
  | nan
  deriving DecidableEq, Repr

/-- Number of fraction bits of the fixed-point representation. -/
abbrev FRAC : Nat := 64

/-- Number of significant bits of `n`, computed with `fuel` halvings at most. -/
def bit_length : Nat → Nat → Nat
  | 0, _ => 0
  | fuel + 1, n => if n = 0 then 0 else bit_length fuel (n / 2) + 1

/-- Round `n` to `p` significant bits, to nearest, ties to even. -/
def rne (p n : Nat) : Nat :=
  let b := bit_length n n
  if b ≤ p then n
  else
    let sh := b - p
    let q := n / 2 ^ sh
    let r := n % 2 ^ sh
    let half := 2 ^ (sh - 1)
    if half < r ∨ (r = half ∧ q % 2 = 1) then (q + 1) * 2 ^ sh else q * 2 ^ sh

/-- Conversion of an unsigned integer (at most 32 bits) to `float` or `double`
followed by nothing else: `(float)clock`, `(double)period`, the constant `1`. -/
def float.ofNat (p n : Nat) : float := .fin (rne p (n * 2 ^ FRAC))

/-- Single-precision division `a / b`. -/
def f32_div : float → float → float
  | .nan, _ => .nan
  | _, .nan => .nan
  | .inf, .inf => .nan
  | .inf, .fin _ => .inf
  | .fin _, .inf => .fin 0
  | .fin a, .fin b =>
    if b = 0 then (if a = 0 then .nan else .inf)
    else
      let q := a * 2 ^ FRAC / b
      let sticky := if a * 2 ^ FRAC % b = 0 then 0 else 1
      .fin (rne 24 (q ||| sticky))

/-- Double-precision product `a * b`. -/
def f64_mul : float → float → float
  | .nan, _ => .nan
  | _, .nan => .nan
  | .inf, .inf => .inf
  | .inf, .fin b => if b = 0 then .nan else .inf
  | .fin a, .inf => if a = 0 then .nan else .inf
  | .fin a, .fin b =>
    let q := a * b / 2 ^ FRAC
    let sticky := if a * b % 2 ^ FRAC = 0 then 0 else 1
    .fin (rne 53 (q ||| sticky))

/-- Conversion of a `double` to `float` (assignment to a `float` object). -/
def f64_to_f32 : float → float
  | .fin n => .fin (rne 24 n)
  | x => x

/-- Single-precision sum `a + b`. -/
def f32_add : float → float → float
  | .nan, _ => .nan
  | _, .nan => .nan
  | .inf, _ => .inf
  | _, .inf => .inf
  | .fin a, .fin b => .fin (rne 24 (a + b))

/-- Comparison `a < b`; every comparison with NaN is false. -/
def f_lt : float → float → Bool
  | .fin a, .fin b => decide (a < b)
  | .fin _, .inf => true
  | _, _ => false

/-- The library function `floor`. -/
def f_floor : float → float
  | .fin n => .fin (n / 2 ^ FRAC * 2 ^ FRAC)
  | x => x

/-- The library function `ceil`. -/
def f_ceil : float → float
  | .fin n => .fin ((n + (2 ^ FRAC - 1)) / 2 ^ FRAC * 2 ^ FRAC)
  | x => x

/-- Conversion of a floating value to `uint32_t`: the integral part when it is
below `2^32`.  C leaves the conversion of any other value undefined; `cvt`
gives what the target delivers there. -/
def f_to_u32 (cvt : float → Nat) : float → Nat
  | .fin n => if n / 2 ^ FRAC < 2 ^ 32 then n / 2 ^ FRAC else cvt (.fin n) % 2 ^ 32
  | x => cvt x % 2 ^ 32

/-! ## Module state -/

/-- The statics of `scheduler.c`. -/
structure scheduler where
  /-- Array of tasks, `task_list[MAX_TASKS]`. -/
  task_list : Fin MAX_TASKS → task_control_t
  /-- Flag enabling the scheduler (`uint8_t`). -/
  task_scheduler_running : Nat
  /-- Ticks per millisecond, set by `task_scheduler_init`. -/
  count_per_ms : float

/-- State at program start: statics are zero-initialised, so every slot has
`id = 0`, a null task, `delay = period = 0` and status `TASK_EMPTY` (value 0). -/
def scheduler.zero : scheduler where
  task_list := fun _ => ⟨0, 0, 0, 0, TASK_EMPTY⟩
  task_scheduler_running := 0
  count_per_ms := .fin 0

/-- Assignment to fields of `task_list[i]`. -/
def scheduler.upd (s : scheduler) (i : Fin MAX_TASKS)
    (f : task_control_t → task_control_t) : scheduler :=
  { s with task_list := Function.update s.task_list i (f (s.task_list i)) }

/-! ## Operations -/

/-- The static `find_task`: first slot whose `id` field equals `id` (a
`uint8_t`), or the null pointer. -/
def find_task (s : scheduler) (id : Nat) : Option (Fin MAX_TASKS) :=
  (List.finRange MAX_TASKS).find? (fun i => (s.task_list i).id == id % 256)

/-- Initializes the scheduler; `clock` is a `uint16_t`. -/
def task_scheduler_init (s : scheduler) (clock : Nat) : scheduler :=
  { s with
    task_scheduler_running := 0
    count_per_ms := f32_div (float.ofNat 24 1) (float.ofNat 24 (clock % 2 ^ 16)) }

/-- The value of `time_calc` in `task_add`, after the clamp to `1.0f`. -/
def time_calc (count_per_ms : float) (period : Nat) : float :=
  let t := f64_to_f32 (f64_mul (float.ofNat 53 (period % 2 ^ 32)) count_per_ms)
  if f_lt t (float.ofNat 24 1) then float.ofNat 24 1 else t

/-- The value assigned to `delay` in `task_add`:
`(time_calc > floor(time_calc + 0x5f)) ? ceil(time_calc) : floor(time_calc)`. -/
def delay_of (cvt : float → Nat) (t : float) : Nat :=
  f_to_u32 cvt
    (if f_lt (f_floor (f32_add t (float.ofNat 24 0x5f))) t then f_ceil t else f_floor t)

/-- Adds a new task to the task list; returns the task ID or `TASK_ERROR`. -/
def task_add (cvt : float → Nat) (s : scheduler) (task : task_t) (period : Nat) :
    scheduler × Nat :=
  let t := time_calc s.count_per_ms period
  match (List.finRange MAX_TASKS).find? (fun i => (s.task_list i).task_status == TASK_EMPTY) with
  | some task_id =>
    let s := s.upd task_id (fun e => { e with task_status := TASK_RUNNABLE })
    let s := s.upd task_id (fun e => { e with id := task_id.val })
    let s := s.upd task_id (fun e => { e with task := task })
    let s := s.upd task_id (fun e => { e with delay := delay_of cvt t })
    let s := s.upd task_id (fun e => { e with period := e.delay })
    (s, (s.task_list task_id).id)
  | none => (s, TASK_ERROR.toNat)

/-- Removes a task from the task list. -/
def task_delete (s : scheduler) (id : Nat) : scheduler :=
  match find_task s id with
  | none => s
  | some i =>
    let s := s.upd i (fun e => { e with task := 0 })
    s.upd i (fun e => { e with task_status := TASK_EMPTY })

/-- Retrieves the task status. -/
def task_get_status (s : scheduler) (id : Nat) : task_status_e :=
  match find_task s id with
  | none => TASK_ERROR
  | some i => (s.task_list i).task_status

/-- Stops the task from running. -/
def task_stop (s : scheduler) (id : Nat) : scheduler :=
  match find_task s id with
  | none => s
  | some i => s.upd i (fun e => { e with task_status := TASK_STOPPED })

/-- Resumes the task. -/
def task_resume (s : scheduler) (id : Nat) : scheduler :=
  match find_task s id with
  | none => s
  | some i => s.upd i (fun e => { e with task_status := TASK_RUNNABLE })

/-- Starts the scheduler. -/
def task_scheduler_start (s : scheduler) : scheduler :=
  { s with task_scheduler_running := 1 }

/-- Stops the scheduler. -/
def task_scheduler_stop (s : scheduler) : scheduler :=
  { s with task_scheduler_running := 0 }

/-- One call made by `task_dispatch`: the slot and the pointer called through. -/
abbrev call_t := Fin MAX_TASKS × task_t

/-- Test of the dispatch loop: `delay == 0 && task_status == TASK_RUNNABLE`. -/
def due (s : scheduler) (i : Fin MAX_TASKS) : Bool :=
  (s.task_list i).delay == 0 && (s.task_list i).task_status == TASK_RUNNABLE

/-- Body of the loop of `task_dispatch` for slot `i`; `code f` is what a call
through pointer `f` does to the scheduler. -/
def dispatch_body (code : task_t → scheduler → scheduler)
    (acc : scheduler × List call_t) (i : Fin MAX_TASKS) : scheduler × List call_t :=
  let s := acc.1
  if due s i then
    let s := s.upd i (fun e => { e with task_status := TASK_RUNNING })
    let f := (s.task_list i).task
    let s := code f s
    let s := s.upd i (fun e => { e with delay := e.period })
    let s := s.upd i (fun e => { e with task_status := TASK_RUNNABLE })
    (s, acc.2 ++ [(i, f)])
  else acc

/-- Dispatches tasks when they are ready to run; returns the new state and the
calls made, in the order they were made. -/
def task_dispatch (code : task_t → scheduler → scheduler) (s : scheduler) :
    scheduler × List call_t :=
  if s.task_scheduler_running = 1 then
    (List.finRange MAX_TASKS).foldl (dispatch_body code) (s, [])
  else (s, [])

/-- Gets the number of tasks in the scheduler (counts the `TASK_EMPTY` slots). -/
def task_get_count (s : scheduler) : Nat :=
  (List.finRange MAX_TASKS).foldl
    (fun count i => if (s.task_list i).task_status = TASK_EMPTY then count + 1 else count) 0

/-- Body of the loop of `task_scheduler_clock` for slot `i`. -/
def clock_body (s : scheduler) (i : Fin MAX_TASKS) : scheduler :=
  if (s.task_list i).task_status = TASK_RUNNABLE then
    if 0 < (s.task_list i).delay then s.upd i (fun e => { e with delay := e.delay - 1 })
    else s
  else s

/-- Called in the timer ISR to decrement the delay of each task. -/
def task_scheduler_clock (s : scheduler) : scheduler :=
  if s.task_scheduler_running ≠ 0 then (List.finRange MAX_TASKS).foldl clock_body s
  else s

/-! ## Auxiliary definitions used in the statements -/

/-- Entry of a slot after its task was run: delay reloaded, status runnable. -/
def reloaded (e : task_control_t) : task_control_t :=
  { e with delay := e.period, task_status := TASK_RUNNABLE }

/-- Entry of a slot after one clock tick. -/
def ticked (e : task_control_t) : task_control_t :=
  if e.task_status = TASK_RUNNABLE ∧ 0 < e.delay then { e with delay := e.delay - 1 } else e

/-- Consecutive calls of `task_add`, one per element of `args`. -/
def add_all (cvt : float → Nat) (s : scheduler) (args : List (task_t × Nat)) : scheduler :=
  args.foldl (fun s a => (task_add cvt s a.1 a.2).1) s

/-- The first `n` slots are occupied and the others are empty. -/
def filled (n : Nat) (s : scheduler) : Prop :=
  ∀ i : Fin MAX_TASKS, (i.val < n → (s.task_list i).task_status ≠ TASK_EMPTY) ∧
    (n ≤ i.val → (s.task_list i).task_status = TASK_EMPTY)

/-- What happens to the scheduler once the tasks are registered: a timer
interrupt calls `task_scheduler_clock`, the idle loop calls `task_dispatch`. -/
inductive event
  | tick
  | sweep
  deriving DecidableEq, Repr

/-- Run a sequence of events; returns the final state and all the calls the
sweeps made, in order. -/
def run_events (code : task_t → scheduler → scheduler) :
    scheduler → List event → scheduler × List call_t
  | s, [] => (s, [])
  | s, .tick :: es => run_events code (task_scheduler_clock s) es
  | s, .sweep :: es =>
    ((run_events code (task_dispatch code s).1 es).1,
      (task_dispatch code s).2 ++ (run_events code (task_dispatch code s).1 es).2)

/-- Number of calls made for slot `k` in a list of calls. -/
def calls_of (k : Fin MAX_TASKS) (tr : List call_t) : Nat :=
  (tr.map Prod.fst).count k

/-- Callbacks that leave the scheduler alone. -/
def quiet : task_t → scheduler → scheduler := fun _ s => s

/-- A target whose out-of-range conversions saturate. -/
def cvt_sat : float → Nat := fun _ => 2 ^ 32 - 1

/-- The header example: `task_scheduler_init( 1000 )`, one task of 1000 ms with the
callback at address 5, `task_scheduler_start()`. -/
def demo : scheduler :=
  task_scheduler_start (task_add cvt_sat (task_scheduler_init scheduler.zero 1000) 5 1000).1

/-- Seven registrations, filling the table. -/
def seven_tasks : List (task_t × Nat) :=
  [(11, 1000), (12, 2000), (13, 3000), (14, 4000), (15, 5000), (16, 6000), (17, 7000)]

/-- Slot `k` holds a runnable task `cb` of period `p` with `d` ticks to go, and
the scheduler is running. -/
def waiting (k : Fin MAX_TASKS) (cb : task_t) (p d : Nat) (s : scheduler) : Prop :=
  s.task_scheduler_running = 1 ∧ (s.task_list k).task_status = TASK_RUNNABLE ∧
    (s.task_list k).period = p ∧ (s.task_list k).delay = d ∧ (s.task_list k).task = cb

/-- A call of the public interface that can change the scheduler
(`task_get_status` and `task_get_count` only read it). -/
inductive api_t
  | init (ms : Nat)
  | add (task : task_t) (period : Nat)
  | delete (id : Nat)
  | stop (id : Nat)
  | resume (id : Nat)
  | scheduler_start
  | scheduler_stop
  | clock
  deriving DecidableEq, Repr

/-- Effect of one interface call. -/
def api_t.run (cvt : float → Nat) : api_t → scheduler → scheduler
  | .init ms, s => task_scheduler_init s ms
  | .add task period, s => (task_add cvt s task period).1
  | .delete id, s => task_delete s id
  | .stop id, s => task_stop s id
  | .resume id, s => task_resume s id
  | .scheduler_start, s => task_scheduler_start s
  | .scheduler_stop, s => task_scheduler_stop s
  | .clock, s => task_scheduler_clock s

/-- Callbacks given by their bodies: the task at address `f` makes the interface
calls `body f`, in order (a timer interrupt during the task is a `clock`). -/
def code_of (cvt : float → Nat) (body : task_t → List api_t) :
    task_t → scheduler → scheduler :=
  fun f s => (body f).foldl (fun s c => c.run cvt s) s

/-- States the program can be in between two interface calls of its main flow:
it starts from the zeroed statics and calls the interface, its tasks being
called by `task_dispatch`. -/
inductive reachable (cvt : float → Nat) (body : task_t → List api_t) : scheduler → Prop
  | zero : reachable cvt body scheduler.zero
  | call (s : scheduler) (c : api_t) : reachable cvt body s → reachable cvt body (c.run cvt s)
  | dispatch (s : scheduler) : reachable cvt body s →
      reachable cvt body (task_dispatch (code_of cvt body) s).1

/-- Invariant of the table: the `id` field of slot `i` is `i`, or still the 0 of
the zeroed statics in a slot that is empty; an empty slot has a null task. -/
def table_ok (s : scheduler) : Prop :=
  ∀ i : Fin MAX_TASKS,
    ((s.task_list i).id = i.val ∨
      ((s.task_list i).id = 0 ∧ (s.task_list i).task_status = TASK_EMPTY)) ∧
    ((s.task_list i).task_status = TASK_EMPTY → (s.task_list i).task = 0)

/-- The `id` field of slot `i` holds `i`. -/
def pinned (i : Fin MAX_TASKS) (s : scheduler) : Prop := (s.task_list i).id = i.val

/-- Callbacks that make no interface call. -/
def no_calls : task_t → List api_t := fun _ => []

/-- The fresh table: zeroed statics, then `task_scheduler_init( 1000 )`. -/
def fresh : scheduler := task_scheduler_init scheduler.zero 1000

/-- The table invariant can be checked by running through the slots. -/
instance (s : scheduler) : Decidable (table_ok s) := by
  unfold table_ok
  exact inferInstance

/-- Whether the first `n` slots are the occupied ones can be checked. -/
instance (n : Nat) (s : scheduler) : Decidable (filled n s) := by
  unfold filled
  exact inferInstance

/-- Whether slot `k` is waiting with `d` ticks to go can be checked. -/
instance (k : Fin MAX_TASKS) (cb : task_t) (p d : Nat) (s : scheduler) :
    Decidable (waiting k cb p d s) := by
  unfold waiting
  exact inferInstance

/-- Whether the `id` field of slot `i` holds `i` can be checked. -/
instance (i : Fin MAX_TASKS) (s : scheduler) : Decidable (pinned i s) := by
  unfold pinned
  exact inferInstance

/-- The header example with a task of 5000 ms, that is 5 ticks of 1000 ms. -/
def demo5 : scheduler :=
  task_scheduler_start (task_add cvt_sat (task_scheduler_init scheduler.zero 1000) 5 5000).1

/-- Every delay is at most its period, and both fit a `uint32_t`. -/
def bounded (s : scheduler) : Prop :=
  ∀ i : Fin MAX_TASKS, (s.task_list i).delay ≤ (s.task_list i).period ∧
    (s.task_list i).period < 2 ^ 32

/-- A target whose out-of-range conversions deliver 0 (the low 32 bits of a
64-bit conversion of `2^32`). -/
def cvt_wrap : float → Nat := fun _ => 0

/-- Bookkeeping in the words of the specification, next to the state: the ids a
successful `task_add` handed out and that were not passed to `task_delete`
since. -/
def track_registered (cvt : float → Nat) (acc : scheduler × List Nat) (c : api_t) :
    scheduler × List Nat :=
  match c with
  | .add task period =>
    ((task_add cvt acc.1 task period).1,
      if (task_add cvt acc.1 task period).2 = TASK_ERROR.toNat then acc.2
      else (task_add cvt acc.1 task period).2 :: acc.2)
  | .delete id => (task_delete acc.1 id, acc.2.filter (fun r => r ≠ id % 256))
  | c => (c.run cvt acc.1, acc.2)

/-- Entry of a slot after `task_dispatch` ran its task, when the task itself
applied `g` to the entry: the entry is marked running, `g` acts, then the delay
is reloaded from the period and the status set back to runnable. -/
def after_call (g : task_control_t → task_control_t) (e : task_control_t) : task_control_t :=
  { g { e with task_status := TASK_RUNNING } with
    delay := (g { e with task_status := TASK_RUNNING }).period
    task_status := TASK_RUNNABLE }

/-- What `task_stop` does to the entry it finds. -/
def stop_entry (e : task_control_t) : task_control_t := { e with task_status := TASK_STOPPED }

/-- What `task_delete` does to the entry it finds. -/
def delete_entry (e : task_control_t) : task_control_t :=
  { e with task := 0, task_status := TASK_EMPTY }

/-- A value is representable with 24 significant bits. -/
def fits24 (n : Nat) : Prop := ∃ c e : Nat, c ≤ 2 ^ 24 ∧ n = c * 2 ^ e

/-- The sweep of `task_dispatch` when its loop index has reached `n`: the state
and the calls made once the slots below `n` have been handled. -/
def sweep (code : task_t → scheduler → scheduler) (s : scheduler) :
    Nat → scheduler × List call_t
  | 0 => (s, [])
  | n + 1 =>
    if h : n < MAX_TASKS then dispatch_body code (sweep code s n) ⟨n, h⟩
    else sweep code s n

/-- The state in which the sweep calls the task of slot `j`, when that slot is
due at its turn: the sweep so far, with slot `j` marked running. -/
def at_call (code : task_t → scheduler → scheduler) (s : scheduler) (j : Fin MAX_TASKS) :
    scheduler :=
  (sweep code s j.val).1.upd j (fun e => { e with task_status := TASK_RUNNING })

/-- Three tasks of 1000 ms, at the addresses 5, 6 and 7, registered after
`task_scheduler_init( 1000 )`; the scheduler is started and one tick has gone, so
the slots 0, 1 and 2 are due. -/
def three_due : scheduler :=
  task_scheduler_clock (task_scheduler_start
    (task_add cvt_sat (task_add cvt_sat (task_add cvt_sat fresh 5 1000).1 6 1000).1 7 1000).1)

/-- The task at address 5 calls `task_delete( 0 )` (its own id in `three_due`), the
task at address 6 calls `task_stop( 2 )`, every other task calls nothing. -/
def body_stop_other : task_t → List api_t :=
  fun f => if f = 5 then [api_t.delete 0] else if f = 6 then [api_t.stop 2] else []

/-- The task at address 5 calls `task_stop( 0 )` (its own id in `three_due`), the
task at address 6 calls `task_stop( 2 )`, every other task calls nothing. -/
def body_stop_stop : task_t → List api_t :=
  fun f => if f = 5 then [api_t.stop 0] else if f = 6 then [api_t.stop 2] else []

/-- The task at address 5 calls `task_delete( 0 )` (its own id in `three_due`), the
task at address 6 calls `task_delete( 2 )`, every other task calls nothing. -/
def body_delete_other : task_t → List api_t :=
  fun f => if f = 5 then [api_t.delete 0] else if f = 6 then [api_t.delete 2] else []

/-! ## Basic facts about slot assignment -/

theorem upd_task_list (s : scheduler) (i j : Fin MAX_TASKS)
    (f : task_control_t → task_control_t) :
    (s.upd i f).task_list j = if j = i then f (s.task_list i) else s.task_list j := by
  simp [scheduler.upd, Function.update_apply]

theorem upd_running (s : scheduler) (i : Fin MAX_TASKS)
    (f : task_control_t → task_control_t) :
    (s.upd i f).task_scheduler_running = s.task_scheduler_running := rfl

theorem upd_count_per_ms (s : scheduler) (i : Fin MAX_TASKS)
    (f : task_control_t → task_control_t) :
    (s.upd i f).count_per_ms = s.count_per_ms := rfl

theorem scheduler_ext {s t : scheduler} (h1 : ∀ i, s.task_list i = t.task_list i)
    (h2 : s.task_scheduler_running = t.task_scheduler_running)
    (h3 : s.count_per_ms = t.count_per_ms) : s = t := by
  cases s; cases t
  simp only [scheduler.mk.injEq]
  exact ⟨funext h1, h2, h3⟩

theorem upd_upd (s : scheduler) (i : Fin MAX_TASKS) (f g : task_control_t → task_control_t) :
    (s.upd i f).upd i g = s.upd i (fun e => g (f e)) := by
  apply scheduler_ext
  · intro j
    simp only [upd_task_list]
    split <;> simp
  · rfl
  · rfl

theorem dispatch_body_quiet (code : task_t → scheduler → scheduler)
    (hcode : ∀ f s, code f s = s) (s : scheduler) (tr : List call_t) (i : Fin MAX_TASKS) :
    dispatch_body code (s, tr) i =
      if due s i then (s.upd i reloaded, tr ++ [(i, (s.task_list i).task)]) else (s, tr) := by
  unfold dispatch_body
  simp only [hcode, upd_upd]
  split
  · congr 1
    simp [upd_task_list]
  · rfl

theorem dispatch_foldl_quiet (code : task_t → scheduler → scheduler)
    (hcode : ∀ f s, code f s = s) (l : List (Fin MAX_TASKS)) (hl : l.Nodup) :
    ∀ (s : scheduler) (tr : List call_t),
      (∀ j, ((l.foldl (dispatch_body code) (s, tr)).1.task_list j =
          if j ∈ l ∧ due s j = true then reloaded (s.task_list j) else s.task_list j)) ∧
      (l.foldl (dispatch_body code) (s, tr)).1.task_scheduler_running = s.task_scheduler_running ∧
      (l.foldl (dispatch_body code) (s, tr)).1.count_per_ms = s.count_per_ms ∧
      (l.foldl (dispatch_body code) (s, tr)).2 =
        tr ++ (l.filter (fun i => due s i)).map (fun i => (i, (s.task_list i).task)) := by
  induction l with
  | nil => intro s tr; simp
  | cons a l ih =>
    intro s tr
    have ha : a ∉ l := (List.nodup_cons.mp hl).1
    have hl' : l.Nodup := (List.nodup_cons.mp hl).2
    simp only [List.foldl_cons, dispatch_body_quiet code hcode]
    by_cases hd : due s a = true
    · simp only [hd, if_true]
      obtain ⟨h1, h2, h3, h4⟩ := ih hl' (s.upd a reloaded) (tr ++ [(a, (s.task_list a).task)])
      have hsame : ∀ j, j ∈ l → (s.upd a reloaded).task_list j = s.task_list j := by
        intro j hj
        have : j ≠ a := fun h => ha (h ▸ hj)
        simp [upd_task_list, this]
      have hdue : ∀ j, j ∈ l → due (s.upd a reloaded) j = due s j := by
        intro j hj
        simp [due, hsame j hj]
      refine ⟨?_, ?_, ?_, ?_⟩
      · intro j
        rw [h1 j]
        by_cases hj : j ∈ l
        · have hja : j ≠ a := fun h => ha (h ▸ hj)
          simp [hj, hdue j hj, hsame j hj, hja]
        · by_cases hja : j = a
          · subst hja
            simp [hj, hd, upd_task_list]
          · simp [hj, hja, upd_task_list]
      · rw [h2]; rfl
      · rw [h3]; rfl
      · rw [h4]
        simp only [List.filter_cons, hd, if_true, List.map_cons, List.append_assoc,
          List.singleton_append]
        congr 2
        rw [List.filter_congr (fun j hj => hdue j hj)]
        exact List.map_congr_left (fun j hj => by
          rw [hsame j (List.mem_of_mem_filter hj)])
    · have hd' : due s a = false := by simpa using hd
      simp only [hd', Bool.false_eq_true, if_false]
      obtain ⟨h1, h2, h3, h4⟩ := ih hl' s tr
      refine ⟨?_, h2, h3, ?_⟩
      · intro j
        rw [h1 j]
        by_cases hja : j = a
        · subst hja
          simp [ha, hd']
        · simp [hja]
      · rw [h4]
        simp [List.filter_cons, hd']


theorem due_iff (s : scheduler) (i : Fin MAX_TASKS) :
    due s i = true ↔ (s.task_list i).delay = 0 ∧ (s.task_list i).task_status = TASK_RUNNABLE := by
  simp [due]

theorem upd_self (s : scheduler) (i : Fin MAX_TASKS) (f : task_control_t → task_control_t)
    (h : f (s.task_list i) = s.task_list i) : s.upd i f = s := by
  apply scheduler_ext
  · intro j
    rw [upd_task_list]
    split
    · next hj => rw [hj, h]
    · rfl
  · rfl
  · rfl

theorem clock_body_eq (s : scheduler) (i : Fin MAX_TASKS) :
    clock_body s i = s.upd i ticked := by
  unfold clock_body
  by_cases h1 : (s.task_list i).task_status = TASK_RUNNABLE
  · by_cases h2 : 0 < (s.task_list i).delay
    · simp only [h1, h2, if_true]
      apply scheduler_ext
      · intro j
        simp only [upd_task_list, ticked, h1, h2, and_self, if_true]
      · rfl
      · rfl
    · simp only [h1, h2, if_true, if_false]
      exact (upd_self s i ticked (by simp [ticked, h2])).symm
  · simp only [h1, if_false]
    exact (upd_self s i ticked (by simp [ticked, h1])).symm

theorem foldl_upd (g : task_control_t → task_control_t) (l : List (Fin MAX_TASKS))
    (hl : l.Nodup) :
    ∀ s : scheduler,
      (∀ j, (l.foldl (fun s i => s.upd i g) s).task_list j =
          if j ∈ l then g (s.task_list j) else s.task_list j) ∧
      (l.foldl (fun s i => s.upd i g) s).task_scheduler_running = s.task_scheduler_running ∧
      (l.foldl (fun s i => s.upd i g) s).count_per_ms = s.count_per_ms := by
  induction l with
  | nil => intro s; simp
  | cons a l ih =>
    intro s
    have ha : a ∉ l := (List.nodup_cons.mp hl).1
    obtain ⟨h1, h2, h3⟩ := ih (List.nodup_cons.mp hl).2 (s.upd a g)
    simp only [List.foldl_cons]
    refine ⟨?_, by rw [h2]; rfl, by rw [h3]; rfl⟩
    intro j
    rw [h1 j]
    by_cases hj : j ∈ l
    · have hja : j ≠ a := fun h => ha (h ▸ hj)
      simp [hj, hja, upd_task_list]
    · by_cases hja : j = a
      · subst hja
        simp [hj, upd_task_list]
      · simp [hj, hja, upd_task_list]

theorem task_scheduler_clock_eq (s : scheduler) (h : s.task_scheduler_running ≠ 0) :
    (∀ j, (task_scheduler_clock s).task_list j = ticked (s.task_list j)) ∧
    (task_scheduler_clock s).task_scheduler_running = s.task_scheduler_running ∧
    (task_scheduler_clock s).count_per_ms = s.count_per_ms := by
  unfold task_scheduler_clock
  simp only [h, ne_eq, not_false_eq_true, if_true]
  have hb : clock_body = fun s i => s.upd i ticked := by
    funext s i; exact clock_body_eq s i
  rw [hb]
  obtain ⟨h1, h2, h3⟩ := foldl_upd ticked (List.finRange MAX_TASKS) (List.nodup_finRange _) s
  refine ⟨fun j => ?_, h2, h3⟩
  rw [h1 j]
  simp

theorem task_dispatch_quiet (code : task_t → scheduler → scheduler)
    (hcode : ∀ f s, code f s = s) (s : scheduler) (h : s.task_scheduler_running = 1) :
    (∀ j, (task_dispatch code s).1.task_list j =
        if due s j = true then reloaded (s.task_list j) else s.task_list j) ∧
    (task_dispatch code s).1.task_scheduler_running = s.task_scheduler_running ∧
    (task_dispatch code s).1.count_per_ms = s.count_per_ms ∧
    (task_dispatch code s).2 =
      ((List.finRange MAX_TASKS).filter (fun i => due s i)).map
        (fun i => (i, (s.task_list i).task)) := by
  rw [task_dispatch, if_pos h]
  obtain ⟨h1, h2, h3, h4⟩ :=
    dispatch_foldl_quiet code hcode (List.finRange MAX_TASKS) (List.nodup_finRange _) s []
  refine ⟨fun j => ?_, h2, h3, ?_⟩
  · rw [h1 j]; simp
  · rw [h4]; simp

/-- C1: with the running flag set and callbacks that leave the scheduler alone,
one `task_dispatch` calls the tasks of exactly the slots with `delay == 0` and
status `TASK_RUNNABLE`, once each and in ascending slot order; every such slot
ends with `delay == period` and status `TASK_RUNNABLE`, every other slot and
the two scalar statics are unchanged. -/
theorem task_dispatch_runs_due (code : task_t → scheduler → scheduler)
    (hcode : ∀ f s, code f s = s) (s : scheduler) (hrun : s.task_scheduler_running = 1) :
    (task_dispatch code s).2 =
      ((List.finRange MAX_TASKS).filter (fun i =>
          decide ((s.task_list i).delay = 0 ∧ (s.task_list i).task_status = TASK_RUNNABLE))).map
        (fun i => (i, (s.task_list i).task)) ∧
    ((task_dispatch code s).2.map Prod.fst).Pairwise (fun i j => i < j) ∧
    (∀ i, (s.task_list i).delay = 0 ∧ (s.task_list i).task_status = TASK_RUNNABLE →
      (task_dispatch code s).1.task_list i =
        { s.task_list i with delay := (s.task_list i).period, task_status := TASK_RUNNABLE }) ∧
    (∀ i, ¬ ((s.task_list i).delay = 0 ∧ (s.task_list i).task_status = TASK_RUNNABLE) →
      (task_dispatch code s).1.task_list i = s.task_list i) ∧
    (task_dispatch code s).1.task_scheduler_running = s.task_scheduler_running ∧
    (task_dispatch code s).1.count_per_ms = s.count_per_ms := by
  obtain ⟨h1, h2, h3, h4⟩ := task_dispatch_quiet code hcode s hrun
  have hf : (fun i => decide ((s.task_list i).delay = 0 ∧
      (s.task_list i).task_status = TASK_RUNNABLE)) = fun i => due s i := by
    funext i
    rw [Bool.eq_iff_iff, due_iff]
    simp
  refine ⟨by rw [h4, hf], ?_, ?_, ?_, h2, h3⟩
  · rw [h4, List.map_map]
    have : (Prod.fst ∘ fun i : Fin MAX_TASKS => (i, (s.task_list i).task)) = id := rfl
    rw [this, List.map_id]
    exact (List.pairwise_lt_finRange MAX_TASKS).filter _
  · intro i hi
    rw [h1 i, if_pos ((due_iff s i).mpr hi)]
    rfl
  · intro i hi
    rw [h1 i, if_neg (fun h => hi ((due_iff s i).mp h))]

/-- Instance of C1 at the header example after one tick: slot 0 is due. -/
theorem task_dispatch_runs_due_witness :
    (∀ f s, quiet f s = s) ∧ (task_scheduler_clock demo).task_scheduler_running = 1 ∧
    (task_dispatch quiet (task_scheduler_clock demo)).2 =
      ((List.finRange MAX_TASKS).filter (fun i =>
          decide (((task_scheduler_clock demo).task_list i).delay = 0 ∧
            ((task_scheduler_clock demo).task_list i).task_status = TASK_RUNNABLE))).map
        (fun i => (i, ((task_scheduler_clock demo).task_list i).task)) :=
  ⟨fun _ _ => rfl, by decide,
    (task_dispatch_runs_due quiet (fun _ _ => rfl) (task_scheduler_clock demo) (by decide)).1⟩

/-- C2: with the running flag set, one `task_scheduler_clock` lowers by one the
delay of every `TASK_RUNNABLE` slot whose delay is positive and leaves every
other slot (runnable with delay 0, stopped, running, empty) as it was; only the
`delay` field of a slot ever changes. -/
theorem task_scheduler_clock_ticks (s : scheduler) (hrun : s.task_scheduler_running ≠ 0) :
    (∀ i, (s.task_list i).task_status = TASK_RUNNABLE ∧ 0 < (s.task_list i).delay →
      (task_scheduler_clock s).task_list i =
        { s.task_list i with delay := (s.task_list i).delay - 1 }) ∧
    (∀ i, ¬ ((s.task_list i).task_status = TASK_RUNNABLE ∧ 0 < (s.task_list i).delay) →
      (task_scheduler_clock s).task_list i = s.task_list i) ∧
    (task_scheduler_clock s).task_scheduler_running = s.task_scheduler_running ∧
    (task_scheduler_clock s).count_per_ms = s.count_per_ms := by
  obtain ⟨h1, h2, h3⟩ := task_scheduler_clock_eq s hrun
  refine ⟨?_, ?_, h2, h3⟩
  · intro i hi
    rw [h1 i, ticked, if_pos hi]
  · intro i hi
    rw [h1 i, ticked, if_neg hi]


/-- Instance of C2 at the header example: the delay of slot 0 goes from 1 to 0. -/
theorem task_scheduler_clock_ticks_witness :
    demo.task_scheduler_running ≠ 0 ∧
    (∀ i, (demo.task_list i).task_status = TASK_RUNNABLE ∧ 0 < (demo.task_list i).delay →
      (task_scheduler_clock demo).task_list i =
        { demo.task_list i with delay := (demo.task_list i).delay - 1 }) :=
  ⟨by decide, (task_scheduler_clock_ticks demo (by decide)).1⟩

/-! ## Registration -/

/-- A successful search of an ascending list returns the least match. -/
theorem find_some_least {n : Nat} (p : Fin n → Bool) (l : List (Fin n))
    (hl : l.Pairwise (fun i j => i < j)) (k : Fin n) (h : l.find? p = some k) :
    p k = true ∧ k ∈ l ∧ ∀ j ∈ l, j < k → p j = false := by
  induction l with
  | nil => simp at h
  | cons a l ih =>
    rw [List.pairwise_cons] at hl
    by_cases ha : p a = true
    · rw [List.find?_cons_of_pos _ ha] at h
      have hak : a = k := Option.some.inj h
      subst hak
      refine ⟨ha, List.mem_cons_self _ _, ?_⟩
      intro j hj hlt
      rcases List.mem_cons.mp hj with rfl | hj
      · exact absurd hlt (lt_irrefl _)
      · exact absurd (hl.1 j hj) (not_lt.mpr hlt.le)
    · rw [List.find?_cons_of_neg _ ha] at h
      obtain ⟨h1, h2, h3⟩ := ih hl.2 h
      refine ⟨h1, List.mem_cons_of_mem _ h2, ?_⟩
      intro j hj hlt
      rcases List.mem_cons.mp hj with rfl | hj
      · simpa using ha
      · exact h3 j hj hlt

/-- The search over all slots finds the least slot that passes the test. -/
theorem find_finRange_some (p : Fin MAX_TASKS → Bool) (k : Fin MAX_TASKS) :
    (List.finRange MAX_TASKS).find? p = some k ↔ (p k = true ∧ ∀ j, j < k → p j = false) := by
  constructor
  · intro h
    obtain ⟨h1, _, h3⟩ := find_some_least p _ (List.pairwise_lt_finRange MAX_TASKS) k h
    exact ⟨h1, fun j hj => h3 j (List.mem_finRange j) hj⟩
  · rintro ⟨h1, h2⟩
    cases h : (List.finRange MAX_TASKS).find? p with
    | none =>
      rw [List.find?_eq_none] at h
      exact absurd h1 (h k (List.mem_finRange k))
    | some m =>
      obtain ⟨m1, _, m3⟩ := find_some_least p _ (List.pairwise_lt_finRange MAX_TASKS) m h
      rcases lt_trichotomy m k with hlt | heq | hgt
      · rw [h2 m hlt] at m1; exact absurd m1 (by simp)
      · rw [heq]
      · rw [m3 k (List.mem_finRange k) hgt] at h1; exact absurd h1 (by simp)

theorem find_finRange_none (p : Fin MAX_TASKS → Bool) :
    (List.finRange MAX_TASKS).find? p = none ↔ ∀ j, p j = false := by
  rw [List.find?_eq_none]
  constructor
  · intro h j
    simpa using h j (List.mem_finRange j)
  · intro h j _
    simp [h j]

/-- Effect of `task_add` when `k` is the lowest empty slot. -/
theorem task_add_at (cvt : float → Nat) (s : scheduler) (cb : task_t) (period : Nat)
    (k : Fin MAX_TASKS) (hk : (s.task_list k).task_status = TASK_EMPTY)
    (hmin : ∀ j, j < k → (s.task_list j).task_status ≠ TASK_EMPTY) :
    task_add cvt s cb period =
      (s.upd k (fun _ => ⟨k.val, cb, delay_of cvt (time_calc s.count_per_ms period),
        delay_of cvt (time_calc s.count_per_ms period), TASK_RUNNABLE⟩), k.val) := by
  have hf : (List.finRange MAX_TASKS).find?
      (fun i => (s.task_list i).task_status == TASK_EMPTY) = some k := by
    rw [find_finRange_some]
    exact ⟨by simp [hk], fun j hj => by simpa using hmin j hj⟩
  unfold task_add
  simp only [hf, upd_upd]
  refine Prod.ext rfl ?_
  simp [upd_task_list]

theorem task_add_none (cvt : float → Nat) (s : scheduler) (cb : task_t) (period : Nat)
    (h : ∀ i, (s.task_list i).task_status ≠ TASK_EMPTY) :
    task_add cvt s cb period = (s, 99) := by
  have hf : (List.finRange MAX_TASKS).find?
      (fun i => (s.task_list i).task_status == TASK_EMPTY) = none := by
    rw [find_finRange_none]
    intro j
    simpa using h j
  unfold task_add
  simp only [hf]
  rfl

theorem exists_first_empty (s : scheduler) (h : ∃ i, (s.task_list i).task_status = TASK_EMPTY) :
    ∃ k : Fin MAX_TASKS, (s.task_list k).task_status = TASK_EMPTY ∧
      ∀ j, j < k → (s.task_list j).task_status ≠ TASK_EMPTY := by
  cases hf : (List.finRange MAX_TASKS).find?
      (fun i => (s.task_list i).task_status == TASK_EMPTY) with
  | none =>
    rw [find_finRange_none] at hf
    obtain ⟨i, hi⟩ := h
    have := hf i
    simp [hi] at this
  | some k =>
    rw [find_finRange_some] at hf
    exact ⟨k, by simpa using hf.1, fun j hj => by simpa using hf.2 j hj⟩

/-- C3: when some slot is empty, `task_add` takes the lowest empty slot `k`,
returns `k` (below `MAX_TASKS`, never the sentinel 99), and leaves slot `k` with
`id == k`, the given task, status `TASK_RUNNABLE` and `delay == period`; the
other slots and the scalar statics are unchanged. -/
theorem task_add_first_empty (cvt : float → Nat) (s : scheduler) (cb : task_t) (period : Nat)
    (h : ∃ i, (s.task_list i).task_status = TASK_EMPTY) :
    ∃ k : Fin MAX_TASKS,
      (s.task_list k).task_status = TASK_EMPTY ∧
      (∀ j, j < k → (s.task_list j).task_status ≠ TASK_EMPTY) ∧
      (task_add cvt s cb period).2 = k.val ∧
      (task_add cvt s cb period).2 < MAX_TASKS ∧
      (task_add cvt s cb period).2 ≠ 99 ∧
      ((task_add cvt s cb period).1.task_list k).id = k.val ∧
      ((task_add cvt s cb period).1.task_list k).task = cb ∧
      ((task_add cvt s cb period).1.task_list k).task_status = TASK_RUNNABLE ∧
      ((task_add cvt s cb period).1.task_list k).delay =
        ((task_add cvt s cb period).1.task_list k).period ∧
      (∀ j, j ≠ k → (task_add cvt s cb period).1.task_list j = s.task_list j) ∧
      (task_add cvt s cb period).1.task_scheduler_running = s.task_scheduler_running ∧
      (task_add cvt s cb period).1.count_per_ms = s.count_per_ms := by
  obtain ⟨k, hk, hmin⟩ := exists_first_empty s h
  refine ⟨k, hk, hmin, ?_⟩
  rw [task_add_at cvt s cb period k hk hmin]
  have hk7 : k.val < 7 := k.isLt
  refine ⟨rfl, hk7, by omega, ?_, ?_, ?_, ?_, ?_, rfl, rfl⟩
  · simp [upd_task_list]
  · simp [upd_task_list]
  · simp [upd_task_list]
  · simp [upd_task_list]
  · intro j hj
    simp [upd_task_list, hj]


theorem filled_task_add (cvt : float → Nat) (s : scheduler) (cb : task_t) (period n : Nat)
    (hn : n < MAX_TASKS) (h : filled n s) : filled (n + 1) (task_add cvt s cb period).1 := by
  have hk : (s.task_list ⟨n, hn⟩).task_status = TASK_EMPTY := (h ⟨n, hn⟩).2 (le_refl n)
  have hmin : ∀ j : Fin MAX_TASKS, j < ⟨n, hn⟩ → (s.task_list j).task_status ≠ TASK_EMPTY :=
    fun j hj => (h j).1 hj
  rw [task_add_at cvt s cb period ⟨n, hn⟩ hk hmin]
  intro i
  simp only [upd_task_list]
  by_cases hi : i = ⟨n, hn⟩
  · subst hi
    simp
  · have hne : i.val ≠ n := fun e => hi (Fin.ext e)
    simp only [hi, if_false]
    exact ⟨fun h1 => (h i).1 (by omega), fun h2 => (h i).2 (by omega)⟩

theorem filled_add_all (cvt : float → Nat) (args : List (task_t × Nat)) :
    ∀ (n : Nat) (s : scheduler), filled n s → n + args.length ≤ MAX_TASKS →
      filled (n + args.length) (add_all cvt s args) := by
  induction args with
  | nil => intro n s h _; simpa [add_all] using h
  | cons a args ih =>
    intro n s h hlen
    simp only [List.length_cons] at hlen
    have h1 := filled_task_add cvt s a.1 a.2 n (by omega) h
    have h2 := ih (n + 1) _ h1 (by omega)
    simp only [List.length_cons, add_all, List.foldl_cons]
    have e : n + (args.length + 1) = n + 1 + args.length := by omega
    rw [e]
    exact h2

/-- Instance of C3: a second registration in the header example gets slot 1. -/
theorem task_add_first_empty_witness :
    (∃ i, (demo.task_list i).task_status = TASK_EMPTY) ∧
    ∃ k : Fin MAX_TASKS,
      (demo.task_list k).task_status = TASK_EMPTY ∧
      (∀ j, j < k → (demo.task_list j).task_status ≠ TASK_EMPTY) ∧
      (task_add cvt_sat demo 6 5000).2 = k.val ∧
      (task_add cvt_sat demo 6 5000).2 < MAX_TASKS ∧
      (task_add cvt_sat demo 6 5000).2 ≠ 99 ∧
      ((task_add cvt_sat demo 6 5000).1.task_list k).id = k.val ∧
      ((task_add cvt_sat demo 6 5000).1.task_list k).task = 6 ∧
      ((task_add cvt_sat demo 6 5000).1.task_list k).task_status = TASK_RUNNABLE ∧
      ((task_add cvt_sat demo 6 5000).1.task_list k).delay =
        ((task_add cvt_sat demo 6 5000).1.task_list k).period ∧
      (∀ j, j ≠ k → (task_add cvt_sat demo 6 5000).1.task_list j = demo.task_list j) ∧
      (task_add cvt_sat demo 6 5000).1.task_scheduler_running = demo.task_scheduler_running ∧
      (task_add cvt_sat demo 6 5000).1.count_per_ms = demo.count_per_ms :=
  ⟨⟨1, by decide⟩, task_add_first_empty cvt_sat demo 6 5000 ⟨1, by decide⟩⟩

/-- C4: when no slot is empty `task_add` returns `TASK_ERROR` (99) and changes
nothing; in particular after seven registrations into an all-empty table the
eighth returns the sentinel and leaves the table as the seven left it. -/
theorem task_add_table_full (cvt : float → Nat) (s : scheduler) (cb : task_t) (period : Nat)
    (hfull : ∀ i, (s.task_list i).task_status ≠ TASK_EMPTY)
    (s0 : scheduler) (args : List (task_t × Nat))
    (hempty : ∀ i, (s0.task_list i).task_status = TASK_EMPTY)
    (hlen : args.length = MAX_TASKS) :
    task_add cvt s cb period = (s, TASK_ERROR.toNat) ∧
    TASK_ERROR.toNat = 99 ∧
    task_add cvt (add_all cvt s0 args) cb period = (add_all cvt s0 args, TASK_ERROR.toNat) := by
  refine ⟨task_add_none cvt s cb period hfull, rfl, ?_⟩
  apply task_add_none
  have h0 : filled 0 s0 := fun i => ⟨fun h => absurd h (Nat.not_lt_zero _), fun _ => hempty i⟩
  have h7 := filled_add_all cvt args 0 s0 h0 (by omega)
  intro i
  exact (h7 i).1 (by have := i.isLt; omega)


/-- Instance of C4: the table filled by seven registrations rejects the eighth. -/
theorem task_add_table_full_witness :
    (∀ i, ((add_all cvt_sat scheduler.zero seven_tasks).task_list i).task_status ≠ TASK_EMPTY) ∧
    (∀ i, (scheduler.zero.task_list i).task_status = TASK_EMPTY) ∧
    seven_tasks.length = MAX_TASKS ∧
    task_add cvt_sat (add_all cvt_sat scheduler.zero seven_tasks) 18 8000 =
      (add_all cvt_sat scheduler.zero seven_tasks, TASK_ERROR.toNat) :=
  ⟨by decide, fun _ => rfl, rfl,
    (task_add_table_full cvt_sat (add_all cvt_sat scheduler.zero seven_tasks) 18 8000
      (by decide) scheduler.zero seven_tasks (fun _ => rfl) rfl).1⟩

/-! ## Periodic firing and the running flag -/

theorem calls_of_append (k : Fin MAX_TASKS) (a b : List call_t) :
    calls_of k (a ++ b) = calls_of k a + calls_of k b := by
  simp [calls_of, List.count_append]

theorem calls_of_dispatch (code : task_t → scheduler → scheduler)
    (hcode : ∀ f s, code f s = s) (s : scheduler) (h : s.task_scheduler_running = 1)
    (k : Fin MAX_TASKS) :
    calls_of k (task_dispatch code s).2 = if due s k = true then 1 else 0 := by
  obtain ⟨_, _, _, h4⟩ := task_dispatch_quiet code hcode s h
  rw [calls_of, h4, List.map_map]
  have : (Prod.fst ∘ fun i : Fin MAX_TASKS => (i, (s.task_list i).task)) = id := rfl
  rw [this, List.map_id]
  have hnd : ((List.finRange MAX_TASKS).filter (fun i => due s i)).Nodup :=
    (List.nodup_finRange _).filter _
  by_cases hd : due s k = true
  · rw [if_pos hd]
    exact List.count_eq_one_of_mem hnd (List.mem_filter.mpr ⟨List.mem_finRange k, hd⟩)
  · rw [if_neg hd]
    exact List.count_eq_zero_of_not_mem (fun hm => hd (List.mem_filter.mp hm).2)

theorem mem_dispatch (code : task_t → scheduler → scheduler)
    (hcode : ∀ f s, code f s = s) (s : scheduler) (h : s.task_scheduler_running = 1)
    (c : call_t) (hc : c ∈ (task_dispatch code s).2) :
    due s c.1 = true ∧ c.2 = (s.task_list c.1).task := by
  obtain ⟨_, _, _, h4⟩ := task_dispatch_quiet code hcode s h
  rw [h4, List.mem_map] at hc
  obtain ⟨i, hi, rfl⟩ := hc
  exact ⟨(List.mem_filter.mp hi).2, rfl⟩

theorem waiting_clock (k : Fin MAX_TASKS) (cb : task_t) (p d : Nat) (s : scheduler)
    (h : waiting k cb p d s) : waiting k cb p (d - 1) (task_scheduler_clock s) := by
  obtain ⟨h1, h2, h3, h4, h5⟩ := h
  obtain ⟨e1, e2, _⟩ := task_scheduler_clock_eq s (by omega)
  refine ⟨by rw [e2, h1], ?_, ?_, ?_, ?_⟩ <;> rw [e1 k, ticked] <;> split <;> simp_all

theorem waiting_dispatch_idle (code : task_t → scheduler → scheduler)
    (hcode : ∀ f s, code f s = s) (k : Fin MAX_TASKS) (cb : task_t) (p d : Nat)
    (s : scheduler) (h : waiting k cb p d s) (hd : 0 < d) :
    waiting k cb p d (task_dispatch code s).1 ∧ calls_of k (task_dispatch code s).2 = 0 := by
  obtain ⟨h1, h2, h3, h4, h5⟩ := h
  have hnd : due s k = false := by simp [due, h4]; omega
  obtain ⟨e1, e2, _, _⟩ := task_dispatch_quiet code hcode s h1
  refine ⟨⟨by rw [e2, h1], ?_, ?_, ?_, ?_⟩, ?_⟩
  · rw [e1 k, hnd]; simpa using h2
  · rw [e1 k, hnd]; simpa using h3
  · rw [e1 k, hnd]; simpa using h4
  · rw [e1 k, hnd]; simpa using h5
  · rw [calls_of_dispatch code hcode s h1 k, hnd]; simp

theorem waiting_dispatch_due (code : task_t → scheduler → scheduler)
    (hcode : ∀ f s, code f s = s) (k : Fin MAX_TASKS) (cb : task_t) (p : Nat)
    (s : scheduler) (h : waiting k cb p 0 s) :
    waiting k cb p p (task_dispatch code s).1 ∧ calls_of k (task_dispatch code s).2 = 1 := by
  obtain ⟨h1, h2, h3, h4, h5⟩ := h
  have hnd : due s k = true := by simp [due, h4, h2]
  obtain ⟨e1, e2, _, _⟩ := task_dispatch_quiet code hcode s h1
  refine ⟨⟨by rw [e2, h1], ?_, ?_, ?_, ?_⟩, ?_⟩
  · rw [e1 k, hnd]; simp [reloaded]
  · rw [e1 k, hnd]; simpa [reloaded] using h3
  · rw [e1 k, hnd]; simpa [reloaded] using h3
  · rw [e1 k, hnd]; simpa [reloaded] using h5
  · rw [calls_of_dispatch code hcode s h1 k, hnd]; simp

theorem run_events_append (code : task_t → scheduler → scheduler) (es2 : List event) :
    ∀ (es1 : List event) (s : scheduler),
      run_events code s (es1 ++ es2) =
        ((run_events code (run_events code s es1).1 es2).1,
          (run_events code s es1).2 ++ (run_events code (run_events code s es1).1 es2).2) := by
  intro es1
  induction es1 with
  | nil => intro s; simp [run_events]
  | cons e es ih =>
    intro s
    cases e with
    | tick =>
      rw [List.cons_append, run_events, run_events, ih]
    | sweep =>
      rw [List.cons_append, run_events, run_events, ih]
      simp

theorem waiting_run_events (code : task_t → scheduler → scheduler)
    (hcode : ∀ f s, code f s = s) (k : Fin MAX_TASKS) (cb : task_t) (p : Nat) :
    ∀ (es : List event) (d : Nat) (s : scheduler), waiting k cb p d s →
      es.count event.tick < d →
      waiting k cb p (d - es.count event.tick) (run_events code s es).1 ∧
        calls_of k (run_events code s es).2 = 0 ∧
        ∀ c ∈ (run_events code s es).2, c.1 = k → c.2 = cb := by
  intro es
  induction es with
  | nil => intro d s h _; simpa [run_events, calls_of] using h
  | cons e es ih =>
    intro d s h hc
    cases e with
    | tick =>
      simp only [List.count_cons_self] at hc
      have := ih (d - 1) _ (waiting_clock k cb p d s h) (by omega)
      simp only [run_events, List.count_cons_self]
      have e : d - (List.count event.tick es + 1) = d - 1 - List.count event.tick es := by omega
      rw [e]
      exact this
    | sweep =>
      have hne : event.sweep ≠ event.tick := by decide
      have hcnt : List.count event.tick (event.sweep :: es) = List.count event.tick es := by
        simp [List.count_cons]
      rw [hcnt] at hc ⊢
      obtain ⟨w, c0⟩ := waiting_dispatch_idle code hcode k cb p d s h (by omega)
      obtain ⟨w2, c2, m2⟩ := ih d _ w hc
      simp only [run_events]
      refine ⟨w2, by rw [calls_of_append, c0, c2], ?_⟩
      intro c hcm hck
      rcases List.mem_append.mp hcm with hm | hm
      · obtain ⟨_, hf⟩ := mem_dispatch code hcode s h.1 c hm
        rw [hf, hck]; exact h.2.2.2.2
      · exact m2 c hm hck

theorem waiting_after_add (cvt : float → Nat) (s0 : scheduler) (cb : task_t) (period : Nat)
    (k : Fin MAX_TASKS) (hadd : (task_add cvt s0 cb period).2 = k.val) :
    waiting k cb ((task_add cvt s0 cb period).1.task_list k).period
      ((task_add cvt s0 cb period).1.task_list k).period
      (task_scheduler_start (task_add cvt s0 cb period).1) := by
  by_cases he : ∃ i, (s0.task_list i).task_status = TASK_EMPTY
  · obtain ⟨m, hm, hmin⟩ := exists_first_empty s0 he
    rw [task_add_at cvt s0 cb period m hm hmin] at hadd ⊢
    have hmk : m = k := Fin.ext hadd
    subst hmk
    refine ⟨rfl, ?_, rfl, ?_, ?_⟩ <;> simp [task_scheduler_start, upd_task_list]
  · have hfull : ∀ i, (s0.task_list i).task_status ≠ TASK_EMPTY := fun i hi => he ⟨i, hi⟩
    rw [task_add_none cvt s0 cb period hfull] at hadd
    have hk : k.val < 7 := k.isLt
    simp only at hadd
    omega

/-- C5: a task that `task_add` registered in slot `k` with a period of `p >= 1`
ticks, the scheduler then being started and the callbacks leaving the scheduler
alone: as long as fewer than `p` calls of `task_scheduler_clock` have happened no
`task_dispatch` calls it; the `task_dispatch` after the `p`-th
`task_scheduler_clock` calls it exactly once and reloads its delay to `p`; a
second `task_dispatch` right after adds no further call. -/
theorem periodic_task_fires (cvt : float → Nat) (code : task_t → scheduler → scheduler)
    (hcode : ∀ f s, code f s = s) (s0 : scheduler) (cb : task_t) (period : Nat)
    (k : Fin MAX_TASKS) (hadd : (task_add cvt s0 cb period).2 = k.val)
    (p : Nat) (hp : ((task_add cvt s0 cb period).1.task_list k).period = p) (hp1 : 1 ≤ p)
    (s : scheduler) (hs : s = task_scheduler_start (task_add cvt s0 cb period).1) :
    (∀ es : List event, es.count event.tick < p →
      calls_of k (run_events code s es).2 = 0) ∧
    (∀ es : List event, es.count event.tick + 1 = p →
      calls_of k (run_events code s (es ++ [event.tick, event.sweep])).2 = 1 ∧
      (∀ c ∈ (run_events code s (es ++ [event.tick, event.sweep])).2, c.1 = k → c.2 = cb) ∧
      ((run_events code s (es ++ [event.tick, event.sweep])).1.task_list k).delay = p ∧
      calls_of k (run_events code s (es ++ [event.tick, event.sweep, event.sweep])).2 = 1) := by
  have hw : waiting k cb p p s := by
    have := waiting_after_add cvt s0 cb period k hadd
    rw [hp, ← hs] at this
    exact this
  refine ⟨fun es hes => (waiting_run_events code hcode k cb p es p s hw hes).2.1, ?_⟩
  intro es hes
  obtain ⟨w1, c1, m1⟩ := waiting_run_events code hcode k cb p es p s hw (by omega)
  have w2 := waiting_clock k cb p _ _ w1
  have e0 : p - List.count event.tick es - 1 = 0 := by omega
  rw [e0] at w2
  obtain ⟨w3, c3⟩ := waiting_dispatch_due code hcode k cb p _ w2
  obtain ⟨_, c4⟩ := waiting_dispatch_idle code hcode k cb p p _ w3 (by omega)
  have r1 : run_events code s (es ++ [event.tick, event.sweep]) =
      ((task_dispatch code (task_scheduler_clock (run_events code s es).1)).1,
        (run_events code s es).2 ++
          (task_dispatch code (task_scheduler_clock (run_events code s es).1)).2) := by
    rw [run_events_append]
    simp [run_events]
  have r2 : run_events code s (es ++ [event.tick, event.sweep, event.sweep]) =
      ((task_dispatch code
          (task_dispatch code (task_scheduler_clock (run_events code s es).1)).1).1,
        (run_events code s es).2 ++
          ((task_dispatch code (task_scheduler_clock (run_events code s es).1)).2 ++
            (task_dispatch code
              (task_dispatch code (task_scheduler_clock (run_events code s es).1)).1).2)) := by
    rw [run_events_append]
    simp [run_events]
  rw [r1, r2]
  refine ⟨by rw [calls_of_append, c1, c3], ?_, w3.2.2.2.1, ?_⟩
  · intro c hcm hck
    rcases List.mem_append.mp hcm with hm | hm
    · exact m1 c hm hck
    · obtain ⟨_, hf⟩ := mem_dispatch code hcode _ w2.1 c hm
      rw [hf, hck]; exact w2.2.2.2.2
  · rw [calls_of_append, calls_of_append, c1, c3, c4]

/-- Instance of C5 at the header example: one tick, then two dispatches, call the
task once in total. -/
theorem periodic_task_fires_witness :
    (∀ f s, quiet f s = s) ∧
    (task_add cvt_sat (task_scheduler_init scheduler.zero 1000) 5 1000).2 = (0 : Fin MAX_TASKS).val ∧
    ((task_add cvt_sat (task_scheduler_init scheduler.zero 1000) 5 1000).1.task_list 0).period = 1 ∧
    calls_of 0 (run_events quiet demo
      ([] ++ [event.tick, event.sweep, event.sweep])).2 = 1 :=
  ⟨fun _ _ => rfl, by decide, by decide,
    ((periodic_task_fires cvt_sat quiet (fun _ _ => rfl)
      (task_scheduler_init scheduler.zero 1000) 5 1000 0 (by decide) 1 (by decide)
      (le_refl 1) demo rfl).2 [] rfl).2.2.2⟩

theorem idle_clock (s : scheduler) (h : s.task_scheduler_running = 0) :
    task_scheduler_clock s = s := by
  simp [task_scheduler_clock, h]

theorem idle_dispatch (code : task_t → scheduler → scheduler) (s : scheduler)
    (h : s.task_scheduler_running = 0) : task_dispatch code s = (s, []) := by
  simp [task_dispatch, h]

/-- C6: while the running flag is 0 (as `task_scheduler_init` and
`task_scheduler_stop` leave it), `task_scheduler_clock` and `task_dispatch`
change nothing and call nothing, also when a runnable slot has delay 0;
`task_scheduler_start` and `task_scheduler_stop` change only the flag, so the
`task_dispatch` after a `task_scheduler_start` calls that due task exactly
once (callbacks leaving the scheduler alone). -/
theorem scheduler_stopped_is_inert (code : task_t → scheduler → scheduler) (s : scheduler)
    (hoff : s.task_scheduler_running = 0) :
    task_scheduler_clock s = s ∧
    task_dispatch code s = (s, []) ∧
    (∀ (t : scheduler) (clock : Nat),
      (task_scheduler_init t clock).task_scheduler_running = 0 ∧
      (task_scheduler_stop t).task_scheduler_running = 0 ∧
      (task_scheduler_stop t).task_list = t.task_list ∧
      (task_scheduler_stop t).count_per_ms = t.count_per_ms ∧
      (task_scheduler_start t).task_scheduler_running = 1 ∧
      (task_scheduler_start t).task_list = t.task_list ∧
      (task_scheduler_start t).count_per_ms = t.count_per_ms) ∧
    (∀ i, (s.task_list i).delay = 0 ∧ (s.task_list i).task_status = TASK_RUNNABLE →
      (∀ f t, code f t = t) →
      calls_of i (task_dispatch code (task_scheduler_start s)).2 = 1 ∧
      (i, (s.task_list i).task) ∈ (task_dispatch code (task_scheduler_start s)).2) := by
  refine ⟨idle_clock s hoff, idle_dispatch code s hoff,
    fun t clock => ⟨rfl, rfl, rfl, rfl, rfl, rfl, rfl⟩, ?_⟩
  intro i hi hcode
  have hd : due (task_scheduler_start s) i = true := (due_iff _ i).mpr hi
  refine ⟨by rw [calls_of_dispatch code hcode _ rfl i, if_pos hd], ?_⟩
  obtain ⟨_, _, _, h4⟩ := task_dispatch_quiet code hcode (task_scheduler_start s) rfl
  rw [h4]
  exact List.mem_map.mpr ⟨i, List.mem_filter.mpr ⟨List.mem_finRange i, hd⟩, rfl⟩

/-- Instance of C6: the header example, stopped when its task is due. -/
theorem scheduler_stopped_is_inert_witness :
    (task_scheduler_stop (task_scheduler_clock demo)).task_scheduler_running = 0 ∧
    task_dispatch quiet (task_scheduler_stop (task_scheduler_clock demo)) =
      (task_scheduler_stop (task_scheduler_clock demo), []) ∧
    calls_of 0 (task_dispatch quiet
      (task_scheduler_start (task_scheduler_stop (task_scheduler_clock demo)))).2 = 1 :=
  ⟨rfl,
    (scheduler_stopped_is_inert quiet (task_scheduler_stop (task_scheduler_clock demo)) rfl).2.1,
    ((scheduler_stopped_is_inert quiet (task_scheduler_stop (task_scheduler_clock demo))
      rfl).2.2.2 0 (by decide) (fun _ _ => rfl)).1⟩

/-! ## Lookup by id: reachable states and their invariant -/

theorem find_task_some (s : scheduler) (id : Nat) (i : Fin MAX_TASKS) :
    find_task s id = some i ↔
      ((s.task_list i).id = id % 256 ∧ ∀ j, j < i → (s.task_list j).id ≠ id % 256) := by
  unfold find_task
  rw [find_finRange_some]
  simp

theorem find_task_none (s : scheduler) (id : Nat) :
    find_task s id = none ↔ ∀ j, (s.task_list j).id ≠ id % 256 := by
  unfold find_task
  rw [find_finRange_none]
  simp

theorem find_task_congr (s t : scheduler) (id : Nat)
    (h : ∀ j, (t.task_list j).id = (s.task_list j).id) : find_task t id = find_task s id := by
  unfold find_task
  have : (fun i => (t.task_list i).id == id % 256) = fun i => (s.task_list i).id == id % 256 := by
    funext i; rw [h i]
  rw [this]

theorem table_ok_slot0 (s : scheduler) (h : table_ok s) : (s.task_list 0).id = 0 := by
  rcases (h 0).1 with h0 | h0
  · exact h0
  · exact h0.1

/-- In a table that satisfies the invariant a successful search for an id
returns the slot with that index. -/
theorem find_task_index (s : scheduler) (h : table_ok s) (id : Nat) (i : Fin MAX_TASKS)
    (hf : find_task s id = some i) : (s.task_list i).id = i.val := by
  rw [find_task_some] at hf
  rcases (h i).1 with hi | hi
  · exact hi
  · by_cases h0 : i = 0
    · rw [h0]; exact table_ok_slot0 s h
    · have hlt : (0 : Fin MAX_TASKS) < i := Fin.pos_iff_ne_zero.mpr h0
      have := hf.2 0 hlt
      rw [table_ok_slot0 s h, ← hf.1, hi.1] at this
      exact absurd rfl this

/-- In a table that satisfies the invariant the search for the id of an occupied
slot returns that slot. -/
theorem find_task_occupied (s : scheduler) (h : table_ok s) (id : Nat) (i : Fin MAX_TASKS)
    (hne : (s.task_list i).task_status ≠ TASK_EMPTY) (hid : (s.task_list i).id = id % 256) :
    find_task s id = some i := by
  have hii : (s.task_list i).id = i.val := by
    rcases (h i).1 with hi | hi
    · exact hi
    · exact absurd hi.2 hne
  rw [find_task_some]
  refine ⟨hid, fun j hj => ?_⟩
  have hji : j.val < i.val := hj
  rw [← hid, hii]
  rcases (h j).1 with hj1 | hj1
  · rw [hj1]; omega
  · rw [hj1.1]; omega

theorem table_ok_upd (s : scheduler) (h : table_ok s) (i : Fin MAX_TASKS)
    (f : task_control_t → task_control_t)
    (h1 : (f (s.task_list i)).id = i.val ∨
      ((f (s.task_list i)).id = 0 ∧ (f (s.task_list i)).task_status = TASK_EMPTY))
    (h2 : (f (s.task_list i)).task_status = TASK_EMPTY → (f (s.task_list i)).task = 0) :
    table_ok (s.upd i f) := by
  intro j
  rw [upd_task_list]
  by_cases hj : j = i
  · subst hj
    simp only [if_true]
    exact ⟨h1, h2⟩
  · simp only [hj, if_false]
    exact h j

theorem table_ok_congr (s t : scheduler) (h : table_ok s)
    (e : ∀ i, (t.task_list i).id = (s.task_list i).id ∧
      (t.task_list i).task_status = (s.task_list i).task_status ∧
      (t.task_list i).task = (s.task_list i).task) : table_ok t := by
  intro i
  obtain ⟨e1, e2, e3⟩ := e i
  rw [e1, e2, e3]
  exact h i

theorem task_delete_eq (s : scheduler) (id : Nat) (i : Fin MAX_TASKS)
    (hf : find_task s id = some i) :
    task_delete s id = s.upd i (fun e => { e with task := 0, task_status := TASK_EMPTY }) := by
  unfold task_delete
  simp only [hf, upd_upd]

theorem table_ok_delete (s : scheduler) (h : table_ok s) (id : Nat) :
    table_ok (task_delete s id) := by
  cases hf : find_task s id with
  | none => simpa [task_delete, hf] using h
  | some i =>
    rw [task_delete_eq s id i hf]
    apply table_ok_upd s h
    · rcases (h i).1 with hi | hi
      · exact Or.inl hi
      · exact Or.inr ⟨hi.1, rfl⟩
    · intro _; rfl

theorem table_ok_stop (s : scheduler) (h : table_ok s) (id : Nat) :
    table_ok (task_stop s id) := by
  cases hf : find_task s id with
  | none => simpa [task_stop, hf] using h
  | some i =>
    simp only [task_stop, hf]
    apply table_ok_upd s h
    · exact Or.inl (find_task_index s h id i hf)
    · intro hc; simp at hc

theorem table_ok_resume (s : scheduler) (h : table_ok s) (id : Nat) :
    table_ok (task_resume s id) := by
  cases hf : find_task s id with
  | none => simpa [task_resume, hf] using h
  | some i =>
    simp only [task_resume, hf]
    apply table_ok_upd s h
    · exact Or.inl (find_task_index s h id i hf)
    · intro hc; simp at hc

theorem table_ok_add (cvt : float → Nat) (s : scheduler) (h : table_ok s) (cb : task_t)
    (period : Nat) : table_ok (task_add cvt s cb period).1 := by
  by_cases he : ∃ i, (s.task_list i).task_status = TASK_EMPTY
  · obtain ⟨k, hk, hmin⟩ := exists_first_empty s he
    rw [task_add_at cvt s cb period k hk hmin]
    dsimp only
    apply table_ok_upd s h
    · exact Or.inl rfl
    · intro hc; simp at hc
  · rw [task_add_none cvt s cb period (fun i hi => he ⟨i, hi⟩)]
    exact h

theorem table_ok_clock (s : scheduler) (h : table_ok s) : table_ok (task_scheduler_clock s) := by
  by_cases hr : s.task_scheduler_running = 0
  · rw [idle_clock s hr]; exact h
  · obtain ⟨e1, _, _⟩ := task_scheduler_clock_eq s hr
    apply table_ok_congr s _ h
    intro i
    rw [e1 i, ticked]
    split <;> simp

theorem table_ok_run (cvt : float → Nat) (c : api_t) (s : scheduler) (h : table_ok s) :
    table_ok (c.run cvt s) := by
  cases c with
  | init ms => exact h
  | add task period => exact table_ok_add cvt s h task period
  | delete id => exact table_ok_delete s h id
  | stop id => exact table_ok_stop s h id
  | resume id => exact table_ok_resume s h id
  | scheduler_start => exact h
  | scheduler_stop => exact h
  | clock => exact table_ok_clock s h

theorem pinned_upd (s : scheduler) (i k : Fin MAX_TASKS) (f : task_control_t → task_control_t)
    (hf : (f (s.task_list k)).id = (s.task_list k).id ∨ (f (s.task_list k)).id = k.val)
    (h : pinned i s) : pinned i (s.upd k f) := by
  unfold pinned at h ⊢
  rw [upd_task_list]
  by_cases hik : i = k
  · subst hik
    simp only [if_true]
    rcases hf with hf | hf
    · rw [hf]; exact h
    · exact hf
  · simp only [hik, if_false]
    exact h

theorem pinned_run (cvt : float → Nat) (c : api_t) (s : scheduler) (i : Fin MAX_TASKS)
    (h : pinned i s) : pinned i (c.run cvt s) := by
  cases c with
  | init ms => exact h
  | add task period =>
    show pinned i (task_add cvt s task period).1
    by_cases he : ∃ j, (s.task_list j).task_status = TASK_EMPTY
    · obtain ⟨k, hk, hmin⟩ := exists_first_empty s he
      rw [task_add_at cvt s task period k hk hmin]
      exact pinned_upd s i k (fun _ => ⟨k.val, task, _, _, TASK_RUNNABLE⟩) (Or.inr rfl) h
    · rw [task_add_none cvt s task period (fun j hj => he ⟨j, hj⟩)]
      exact h
  | delete id =>
    show pinned i (task_delete s id)
    cases hf : find_task s id with
    | none => simpa [task_delete, hf] using h
    | some k =>
      rw [task_delete_eq s id k hf]
      exact pinned_upd s i k _ (Or.inl rfl) h
  | stop id =>
    show pinned i (task_stop s id)
    cases hf : find_task s id with
    | none => simpa [task_stop, hf] using h
    | some k =>
      simp only [task_stop, hf]
      exact pinned_upd s i k _ (Or.inl rfl) h
  | resume id =>
    show pinned i (task_resume s id)
    cases hf : find_task s id with
    | none => simpa [task_resume, hf] using h
    | some k =>
      simp only [task_resume, hf]
      exact pinned_upd s i k _ (Or.inl rfl) h
  | scheduler_start => exact h
  | scheduler_stop => exact h
  | clock =>
    show pinned i (task_scheduler_clock s)
    by_cases hr : s.task_scheduler_running = 0
    · rw [idle_clock s hr]; exact h
    · obtain ⟨e1, _, _⟩ := task_scheduler_clock_eq s hr
      unfold pinned at h ⊢
      rw [e1 i, ticked]
      split
      · exact h
      · exact h

theorem code_of_ok (cvt : float → Nat) (body : task_t → List api_t) (f : task_t)
    (i : Fin MAX_TASKS) (s : scheduler) (h : table_ok s) (hp : pinned i s) :
    table_ok (code_of cvt body f s) ∧ pinned i (code_of cvt body f s) := by
  unfold code_of
  generalize body f = cs
  induction cs generalizing s with
  | nil => exact ⟨h, hp⟩
  | cons c cs ih =>
    rw [List.foldl_cons]
    exact ih _ (table_ok_run cvt c s h) (pinned_run cvt c s i hp)

theorem table_ok_dispatch_body (code : task_t → scheduler → scheduler)
    (hcode : ∀ f i s, table_ok s → pinned i s → table_ok (code f s) ∧ pinned i (code f s))
    (acc : scheduler × List call_t) (i : Fin MAX_TASKS) (h : table_ok acc.1) :
    table_ok (dispatch_body code acc i).1 := by
  unfold dispatch_body
  by_cases hd : due acc.1 i = true
  · simp only [hd, if_true, upd_upd]
    have hrun : (acc.1.task_list i).task_status = TASK_RUNNABLE := ((due_iff _ _).mp hd).2
    have hpin : (acc.1.task_list i).id = i.val := by
      rcases (h i).1 with hi | hi
      · exact hi
      · rw [hi.2] at hrun; exact absurd hrun (by decide)
    have h1 : table_ok (acc.1.upd i (fun e => { e with task_status := TASK_RUNNING })) :=
      table_ok_upd _ h i _ (Or.inl hpin) (fun hc => by simp at hc)
    have p1 : pinned i (acc.1.upd i (fun e => { e with task_status := TASK_RUNNING })) :=
      pinned_upd _ i i _ (Or.inl rfl) hpin
    obtain ⟨h2, p2⟩ := hcode _ i _ h1 p1
    exact table_ok_upd _ h2 i _ (Or.inl p2) (fun hc => by simp at hc)
  · simp only [hd]
    exact h

theorem table_ok_dispatch (code : task_t → scheduler → scheduler)
    (hcode : ∀ f i s, table_ok s → pinned i s → table_ok (code f s) ∧ pinned i (code f s))
    (s : scheduler) (h : table_ok s) : table_ok (task_dispatch code s).1 := by
  unfold task_dispatch
  split
  · have key : ∀ (l : List (Fin MAX_TASKS)) (acc : scheduler × List call_t),
        table_ok acc.1 → table_ok (l.foldl (dispatch_body code) acc).1 := by
      intro l
      induction l with
      | nil => intro acc ha; exact ha
      | cons a l ih =>
        intro acc ha
        rw [List.foldl_cons]
        exact ih _ (table_ok_dispatch_body code hcode acc a ha)
    exact key _ _ h
  · exact h

theorem table_ok_zero : table_ok scheduler.zero := by
  intro i
  exact ⟨Or.inr ⟨rfl, rfl⟩, fun _ => rfl⟩

/-- Every reachable state satisfies the table invariant. -/
theorem reachable_table_ok (cvt : float → Nat) (body : task_t → List api_t) (s : scheduler)
    (h : reachable cvt body s) : table_ok s := by
  induction h with
  | zero => exact table_ok_zero
  | call s c _ ih => exact table_ok_run cvt c s ih
  | dispatch s _ ih =>
    exact table_ok_dispatch _ (fun f i t ht hp => code_of_ok cvt body f i t ht hp) s ih

/-- An id that no slot carries is reported as `TASK_ERROR`, and `task_stop`,
`task_resume` and `task_delete` do nothing with it. -/
theorem unknown_id_ignored (s : scheduler) (id : Nat)
    (h : ∀ j, (s.task_list j).id ≠ id % 256) :
    task_get_status s id = TASK_ERROR ∧ task_stop s id = s ∧ task_resume s id = s ∧
      task_delete s id = s := by
  have hf := (find_task_none s id).mpr h
  simp [task_get_status, task_stop, task_resume, task_delete, hf]

/-- In a reachable state no slot carries an id of `MAX_TASKS` or more. -/
theorem reachable_id_lt (cvt : float → Nat) (body : task_t → List api_t) (s : scheduler)
    (hr : reachable cvt body s) (j : Fin MAX_TASKS) : (s.task_list j).id < MAX_TASKS := by
  have hj : j.val < 7 := j.isLt
  rcases (reachable_table_ok cvt body s hr j).1 with h | h
  · rw [h]; exact hj
  · rw [h.1]; decide

theorem reachable_fresh : reachable cvt_sat no_calls fresh :=
  reachable.call _ (api_t.init 1000) reachable.zero

theorem reachable_demo : reachable cvt_sat no_calls demo :=
  reachable.call _ api_t.scheduler_start
    (reachable.call _ (api_t.add 5 1000) reachable_fresh)

/-- C7, evaluated on the code: on the fresh table (no task registered)
`task_get_status( 0 )` returns `TASK_EMPTY`, not `TASK_ERROR`, because
`find_task` matches the zeroed `id` field of slot 0; the ids 1 and 7 do return
`TASK_ERROR`.  The same happens for the id of a task that was registered and
deleted. -/
theorem task_get_status_unregistered :
    reachable cvt_sat no_calls fresh ∧
    (∀ i, (fresh.task_list i).task_status = TASK_EMPTY) ∧
    task_get_status fresh 0 = TASK_EMPTY ∧
    task_get_status fresh 0 ≠ TASK_ERROR ∧
    task_get_status fresh 1 = TASK_ERROR ∧
    task_get_status fresh 7 = TASK_ERROR ∧
    reachable cvt_sat no_calls (task_delete demo 0) ∧
    (∀ i, ((task_delete demo 0).task_list i).task_status = TASK_EMPTY) ∧
    task_get_status (task_delete demo 0) 0 = TASK_EMPTY :=
  ⟨reachable_fresh, fun _ => rfl, by decide, by decide, by decide, by decide,
    reachable.call _ (api_t.delete 0) reachable_demo, by decide, by decide⟩

/-- C8, evaluated on the code: on the fresh table (no task registered)
`task_stop( 0 )` turns the empty slot 0 into a stopped one and `task_resume( 0 )`
into a runnable one with a null task, and `task_get_count` drops from 7 to 6;
with the ids 1 and 7 both calls change nothing. -/
theorem task_stop_resume_unregistered :
    reachable cvt_sat no_calls fresh ∧
    (∀ i, (fresh.task_list i).task_status = TASK_EMPTY) ∧
    task_get_count fresh = 7 ∧
    ((task_stop fresh 0).task_list 0).task_status = TASK_STOPPED ∧
    task_get_count (task_stop fresh 0) = 6 ∧
    task_stop fresh 0 ≠ fresh ∧
    ((task_resume fresh 0).task_list 0).task_status = TASK_RUNNABLE ∧
    ((task_resume fresh 0).task_list 0).task = 0 ∧
    task_get_count (task_resume fresh 0) = 6 ∧
    task_resume fresh 0 ≠ fresh ∧
    task_stop fresh 1 = fresh ∧
    task_resume fresh 7 = fresh :=
  ⟨reachable_fresh, fun _ => rfl, by decide, by decide, by decide,
    fun h => absurd (congrArg (fun s => (s.task_list 0).task_status) h) (by decide),
    by decide, by decide, by decide,
    fun h => absurd (congrArg (fun s => (s.task_list 0).task_status) h) (by decide),
    rfl, rfl⟩

theorem task_delete_idem (s : scheduler) (id : Nat) :
    task_delete (task_delete s id) id = task_delete s id := by
  cases hf : find_task s id with
  | none =>
    have e : task_delete s id = s := by simp [task_delete, hf]
    rw [e, e]
  | some i =>
    have e := task_delete_eq s id i hf
    have hf2 : find_task (task_delete s id) id = some i := by
      rw [find_task_congr s (task_delete s id) id, hf]
      intro j
      rw [e, upd_task_list]
      split
      · next hj => rw [hj]
      · rfl
    rw [task_delete_eq _ id i hf2, e, upd_upd]

/-- C9: in every reachable state, `task_delete( id )` for an id that no occupied
slot carries leaves the whole state unchanged, deleting twice equals deleting
once, and for the id of an occupied slot it nulls that slot's task and sets its
status to `TASK_EMPTY`, every other slot and the scalar statics unchanged. -/
theorem task_delete_effect (cvt : float → Nat) (body : task_t → List api_t) (s : scheduler)
    (hr : reachable cvt body s) (id : Nat) :
    ((∀ i, (s.task_list i).task_status ≠ TASK_EMPTY → (s.task_list i).id ≠ id % 256) →
      task_delete s id = s) ∧
    task_delete (task_delete s id) id = task_delete s id ∧
    (∀ i, (s.task_list i).task_status ≠ TASK_EMPTY → (s.task_list i).id = id % 256 →
      (task_delete s id).task_list i =
        { s.task_list i with task := 0, task_status := TASK_EMPTY } ∧
      (∀ j, j ≠ i → (task_delete s id).task_list j = s.task_list j) ∧
      (task_delete s id).task_scheduler_running = s.task_scheduler_running ∧
      (task_delete s id).count_per_ms = s.count_per_ms) := by
  have hok := reachable_table_ok cvt body s hr
  refine ⟨?_, task_delete_idem s id, ?_⟩
  · intro hno
    cases hf : find_task s id with
    | none => simp [task_delete, hf]
    | some i =>
      rw [task_delete_eq s id i hf]
      have hid := ((find_task_some s id i).mp hf).1
      have hemp : (s.task_list i).task_status = TASK_EMPTY := by
        by_contra hne
        exact hno i hne hid
      apply upd_self
      have ht := (hok i).2 hemp
      rw [← ht, ← hemp]
  · intro i hne hid
    have hf := find_task_occupied s hok id i hne hid
    rw [task_delete_eq s id i hf]
    refine ⟨by simp [upd_task_list], fun j hj => by simp [upd_task_list, hj], rfl, rfl⟩

/-- Instance of C9 at the header example: deleting the unknown id 3 changes
nothing, deleting id 0 empties slot 0. -/
theorem task_delete_effect_witness :
    reachable cvt_sat no_calls demo ∧
    (∀ i, (demo.task_list i).task_status ≠ TASK_EMPTY → (demo.task_list i).id ≠ 3 % 256) ∧
    task_delete demo 3 = demo ∧
    (demo.task_list 0).task_status ≠ TASK_EMPTY ∧ (demo.task_list 0).id = 0 % 256 ∧
    (task_delete demo 0).task_list 0 =
      { demo.task_list 0 with task := 0, task_status := TASK_EMPTY } :=
  ⟨reachable_demo, by decide,
    (task_delete_effect cvt_sat no_calls demo reachable_demo 3).1 (by decide),
    by decide, by decide,
    ((task_delete_effect cvt_sat no_calls demo reachable_demo 0).2.2 0
      (by decide) (by decide)).1⟩

theorem task_get_count_congr (s t : scheduler)
    (h : ∀ i, (t.task_list i).task_status = (s.task_list i).task_status) :
    task_get_count t = task_get_count s := by
  unfold task_get_count
  have : (fun (count : Nat) (i : Fin MAX_TASKS) =>
        if (t.task_list i).task_status = TASK_EMPTY then count + 1 else count) =
      fun count i => if (s.task_list i).task_status = TASK_EMPTY then count + 1 else count := by
    funext count i
    rw [h i]
  rw [this]

/-- C10: in every reachable state with an empty slot, `task_add` followed by
`task_delete` of the returned id brings `task_get_count` back to its value
before the add, and the next `task_add` returns the same id again. -/
theorem add_delete_roundtrip (cvt : float → Nat) (body : task_t → List api_t) (s : scheduler)
    (hr : reachable cvt body s) (h : ∃ i, (s.task_list i).task_status = TASK_EMPTY)
    (cb : task_t) (period : Nat) (cb2 : task_t) (period2 : Nat) :
    task_get_count (task_delete (task_add cvt s cb period).1 (task_add cvt s cb period).2) =
      task_get_count s ∧
    (task_add cvt (task_delete (task_add cvt s cb period).1 (task_add cvt s cb period).2)
      cb2 period2).2 = (task_add cvt s cb period).2 := by
  have hok := reachable_table_ok cvt body s hr
  obtain ⟨k, hk, hmin⟩ := exists_first_empty s h
  have hk7 : k.val < 7 := k.isLt
  have hadd := task_add_at cvt s cb period k hk hmin
  have hok1 : table_ok (task_add cvt s cb period).1 := table_ok_add cvt s hok cb period
  rw [hadd] at hok1 ⊢
  dsimp only at hok1 ⊢
  have hf : find_task (s.upd k (fun _ => ⟨k.val, cb, delay_of cvt (time_calc s.count_per_ms period),
      delay_of cvt (time_calc s.count_per_ms period), TASK_RUNNABLE⟩)) k.val = some k := by
    apply find_task_occupied _ hok1
    · simp [upd_task_list]
    · simp only [upd_task_list, if_true]
      omega
  rw [task_delete_eq _ _ k hf, upd_upd]
  have hst : ∀ i, ((s.upd k (fun _ => (⟨k.val, 0, delay_of cvt (time_calc s.count_per_ms period),
      delay_of cvt (time_calc s.count_per_ms period), TASK_EMPTY⟩ : task_control_t))).task_list
        i).task_status = (s.task_list i).task_status := by
    intro i
    rw [upd_task_list]
    split
    · next hi => rw [hi, hk]
    · rfl
  refine ⟨task_get_count_congr _ _ hst, ?_⟩
  rw [task_add_at cvt _ cb2 period2 k (by rw [hst k]; exact hk)
    (fun j hj => by rw [hst j]; exact hmin j hj)]

/-- Instance of C10 at the header example: slot 1 is taken, freed and taken again. -/
theorem add_delete_roundtrip_witness :
    reachable cvt_sat no_calls demo ∧
    (∃ i, (demo.task_list i).task_status = TASK_EMPTY) ∧
    task_get_count (task_delete (task_add cvt_sat demo 6 5000).1
      (task_add cvt_sat demo 6 5000).2) = task_get_count demo ∧
    (task_add cvt_sat (task_delete (task_add cvt_sat demo 6 5000).1
      (task_add cvt_sat demo 6 5000).2) 7 10000).2 = (task_add cvt_sat demo 6 5000).2 :=
  ⟨reachable_demo, ⟨1, by decide⟩,
    add_delete_roundtrip cvt_sat no_calls demo reachable_demo ⟨1, by decide⟩ 6 5000 7 10000⟩

/-! ## Stopping and resuming a task -/

theorem task_stop_eq (s : scheduler) (id : Nat) (i : Fin MAX_TASKS)
    (hf : find_task s id = some i) :
    task_stop s id = s.upd i (fun e => { e with task_status := TASK_STOPPED }) := by
  simp only [task_stop, hf]

theorem task_resume_eq (s : scheduler) (id : Nat) (i : Fin MAX_TASKS)
    (hf : find_task s id = some i) :
    task_resume s id = s.upd i (fun e => { e with task_status := TASK_RUNNABLE }) := by
  simp only [task_resume, hf]

/-- The clock leaves a slot that is not runnable as it is, whatever the flag. -/
theorem clock_skips (s : scheduler) (i : Fin MAX_TASKS)
    (h : (s.task_list i).task_status ≠ TASK_RUNNABLE) :
    (task_scheduler_clock s).task_list i = s.task_list i := by
  by_cases hr : s.task_scheduler_running = 0
  · rw [idle_clock s hr]
  · rw [(task_scheduler_clock_eq s hr).1 i, ticked, if_neg (fun hh => h hh.1)]

theorem clock_keeps_id (s : scheduler) (j : Fin MAX_TASKS) :
    ((task_scheduler_clock s).task_list j).id = (s.task_list j).id := by
  by_cases hr : s.task_scheduler_running = 0
  · rw [idle_clock s hr]
  · rw [(task_scheduler_clock_eq s hr).1 j, ticked]
    split <;> rfl

theorem clocks_skip (n : Nat) :
    ∀ (s : scheduler) (i : Fin MAX_TASKS), (s.task_list i).task_status ≠ TASK_RUNNABLE →
      (task_scheduler_clock^[n] s).task_list i = s.task_list i := by
  induction n with
  | zero => intro s i _; rfl
  | succ n ih =>
    intro s i h
    rw [Function.iterate_succ_apply]
    have h1 := clock_skips s i h
    rw [ih (task_scheduler_clock s) i (by rw [h1]; exact h), h1]

theorem clocks_keep_id (n : Nat) :
    ∀ (s : scheduler) (j : Fin MAX_TASKS),
      ((task_scheduler_clock^[n] s).task_list j).id = (s.task_list j).id := by
  induction n with
  | zero => intro s j; rfl
  | succ n ih =>
    intro s j
    rw [Function.iterate_succ_apply, ih, clock_keeps_id]

/-- C11: in every reachable state, for the id of an occupied slot `i` and every
`n`: neither `task_stop` nor `task_resume` touches the delay, `n` calls of
`task_scheduler_clock` after `task_stop` leave it where it was, and after the
`task_resume` that follows slot `i` is what it was before, runnable, with the
same delay and period. -/
theorem stop_freezes_delay (cvt : float → Nat) (body : task_t → List api_t) (s : scheduler)
    (hr : reachable cvt body s) (id : Nat) (i : Fin MAX_TASKS)
    (hne : (s.task_list i).task_status ≠ TASK_EMPTY) (hid : (s.task_list i).id = id % 256)
    (n : Nat) :
    ((task_stop s id).task_list i).delay = (s.task_list i).delay ∧
    ((task_resume s id).task_list i).delay = (s.task_list i).delay ∧
    ((task_scheduler_clock^[n] (task_stop s id)).task_list i).delay = (s.task_list i).delay ∧
    (task_resume (task_scheduler_clock^[n] (task_stop s id)) id).task_list i =
      { s.task_list i with task_status := TASK_RUNNABLE } := by
  have hok := reachable_table_ok cvt body s hr
  have hf := find_task_occupied s hok id i hne hid
  have hstop := task_stop_eq s id i hf
  have hsi : (task_stop s id).task_list i = { s.task_list i with task_status := TASK_STOPPED } := by
    rw [hstop]; simp [upd_task_list]
  have hck := clocks_skip n (task_stop s id) i (by rw [hsi]; simp)
  have hf2 : find_task (task_scheduler_clock^[n] (task_stop s id)) id = some i := by
    rw [find_task_congr s _ id, hf]
    intro j
    rw [clocks_keep_id, hstop, upd_task_list]
    split
    · next hj => rw [hj]
    · rfl
  refine ⟨by rw [hsi], ?_, by rw [hck, hsi], ?_⟩
  · rw [task_resume_eq s id i hf]; simp [upd_task_list]
  · rw [task_resume_eq _ id i hf2, upd_task_list, if_pos rfl, hck, hsi]

/-- Instance of C11, with the scenario of the claim: period 5, two ticks (delay
3), stop, three ticks (still 3), resume, three ticks (0), and the dispatch that
follows calls the task once. -/
theorem stop_freezes_delay_witness :
    reachable cvt_sat no_calls demo5 ∧
    (demo5.task_list 0).task_status ≠ TASK_EMPTY ∧ (demo5.task_list 0).id = 0 % 256 ∧
    (demo5.task_list 0).period = 5 ∧
    ((task_scheduler_clock^[3] (task_stop demo5 0)).task_list 0).delay =
      (demo5.task_list 0).delay ∧
    ((task_scheduler_clock^[2] demo5).task_list 0).delay = 3 ∧
    ((task_scheduler_clock^[3] (task_stop (task_scheduler_clock^[2] demo5) 0)).task_list 0).delay
      = 3 ∧
    ((task_scheduler_clock^[3] (task_resume (task_scheduler_clock^[3]
      (task_stop (task_scheduler_clock^[2] demo5) 0)) 0)).task_list 0).delay = 0 ∧
    calls_of 0 (task_dispatch quiet (task_scheduler_clock^[3] (task_resume
      (task_scheduler_clock^[3] (task_stop (task_scheduler_clock^[2] demo5) 0)) 0))).2 = 1 :=
  ⟨reachable.call _ api_t.scheduler_start
      (reachable.call _ (api_t.add 5 5000) reachable_fresh),
    by decide, by decide, by decide,
    (stop_freezes_delay cvt_sat no_calls demo5
      (reachable.call _ api_t.scheduler_start
        (reachable.call _ (api_t.add 5 5000) reachable_fresh))
      0 0 (by decide) (by decide) 3).2.2.1,
    by decide, by decide, by decide, by decide⟩

/-! ## Idempotence and the slot count -/

/-- An assignment to a field other than `id` does not change what `find_task` finds. -/
theorem find_task_upd (s : scheduler) (i : Fin MAX_TASKS) (f : task_control_t → task_control_t)
    (hf : (f (s.task_list i)).id = (s.task_list i).id) (id : Nat) :
    find_task (s.upd i f) id = find_task s id := by
  apply find_task_congr
  intro j
  rw [upd_task_list]
  split
  · next hj => rw [hf, hj]
  · rfl

theorem task_get_status_eq (s : scheduler) (id : Nat) (i : Fin MAX_TASKS)
    (hf : find_task s id = some i) : task_get_status s id = (s.task_list i).task_status := by
  simp only [task_get_status, hf]

/-- C12: in every reachable state, for the id of an occupied slot,
`task_stop` twice equals `task_stop` once and `task_get_status` reports
`TASK_STOPPED` after each, `task_resume` twice equals `task_resume` once, and
`task_resume` of a task that is already runnable changes nothing. -/
theorem stop_resume_idempotent (cvt : float → Nat) (body : task_t → List api_t) (s : scheduler)
    (hr : reachable cvt body s) (id : Nat) (i : Fin MAX_TASKS)
    (hne : (s.task_list i).task_status ≠ TASK_EMPTY) (hid : (s.task_list i).id = id % 256) :
    task_stop (task_stop s id) id = task_stop s id ∧
    task_get_status (task_stop s id) id = TASK_STOPPED ∧
    task_get_status (task_stop (task_stop s id) id) id = TASK_STOPPED ∧
    task_resume (task_resume s id) id = task_resume s id ∧
    task_get_status (task_resume s id) id = TASK_RUNNABLE ∧
    ((s.task_list i).task_status = TASK_RUNNABLE → task_resume s id = s) := by
  have hok := reachable_table_ok cvt body s hr
  have hf := find_task_occupied s hok id i hne hid
  have hstop := task_stop_eq s id i hf
  have hres := task_resume_eq s id i hf
  have hf1 : find_task (task_stop s id) id = some i := by
    rw [hstop, find_task_upd s i _ rfl, hf]
  have hf2 : find_task (task_resume s id) id = some i := by
    rw [hres, find_task_upd s i _ rfl, hf]
  have e1 : task_stop (task_stop s id) id = task_stop s id := by
    rw [task_stop_eq _ id i hf1, hstop, upd_upd]
  have e2 : task_resume (task_resume s id) id = task_resume s id := by
    rw [task_resume_eq _ id i hf2, hres, upd_upd]
  have g1 : task_get_status (task_stop s id) id = TASK_STOPPED := by
    rw [task_get_status_eq _ id i hf1, hstop]; simp [upd_task_list]
  refine ⟨e1, g1, by rw [e1]; exact g1, e2, ?_, ?_⟩
  · rw [task_get_status_eq _ id i hf2, hres]; simp [upd_task_list]
  · intro hrun
    rw [hres]
    apply upd_self
    rw [← hrun]

/-- Instance of C12 at the header example. -/
theorem stop_resume_idempotent_witness :
    reachable cvt_sat no_calls demo ∧
    (demo.task_list 0).task_status ≠ TASK_EMPTY ∧ (demo.task_list 0).id = 0 % 256 ∧
    task_stop (task_stop demo 0) 0 = task_stop demo 0 ∧
    task_get_status (task_stop demo 0) 0 = TASK_STOPPED ∧
    task_resume demo 0 = demo :=
  ⟨reachable_demo, by decide, by decide,
    (stop_resume_idempotent cvt_sat no_calls demo reachable_demo 0 0 (by decide) (by decide)).1,
    (stop_resume_idempotent cvt_sat no_calls demo reachable_demo 0 0 (by decide) (by decide)).2.1,
    (stop_resume_idempotent cvt_sat no_calls demo reachable_demo 0 0 (by decide)
      (by decide)).2.2.2.2.2 (by decide)⟩

theorem foldl_count (p : Fin MAX_TASKS → Prop) [DecidablePred p] (l : List (Fin MAX_TASKS)) :
    ∀ n : Nat, l.foldl (fun count i => if p i then count + 1 else count) n =
      n + l.countP (fun i => decide (p i)) := by
  induction l with
  | nil => intro n; simp
  | cons a l ih =>
    intro n
    rw [List.foldl_cons, ih]
    by_cases ha : p a
    · simp [ha, List.countP_cons]; omega
    · simp [ha, List.countP_cons]

/-- The count `task_get_count` returns is the number of empty slots. -/
theorem task_get_count_eq (s : scheduler) :
    task_get_count s = (List.finRange MAX_TASKS).countP
      (fun i => decide ((s.task_list i).task_status = TASK_EMPTY)) := by
  unfold task_get_count
  rw [foldl_count (fun i => (s.task_list i).task_status = TASK_EMPTY)]
  simp

/-- C13: `task_get_count` returns the number of slots whose status is
`TASK_EMPTY`: `MAX_TASKS` on an all-empty table, 0 on a full one; the number of
occupied slots is `MAX_TASKS - task_get_count()`.  (It is a function of the state
only, so it changes nothing.) -/
theorem task_get_count_counts_empty (s : scheduler) :
    task_get_count s = (List.finRange MAX_TASKS).countP
      (fun i => decide ((s.task_list i).task_status = TASK_EMPTY)) ∧
    ((∀ i, (s.task_list i).task_status = TASK_EMPTY) → task_get_count s = MAX_TASKS) ∧
    ((∀ i, (s.task_list i).task_status ≠ TASK_EMPTY) → task_get_count s = 0) ∧
    (List.finRange MAX_TASKS).countP
      (fun i => decide ((s.task_list i).task_status ≠ TASK_EMPTY)) =
        MAX_TASKS - task_get_count s ∧
    task_get_count s ≤ MAX_TASKS := by
  have h := task_get_count_eq s
  have hlen : (List.finRange MAX_TASKS).length = MAX_TASKS := List.length_finRange _
  have hsum := List.length_eq_countP_add_countP
    (fun i => decide ((s.task_list i).task_status = TASK_EMPTY)) (List.finRange MAX_TASKS)
  have hneg : (List.finRange MAX_TASKS).countP
      (fun i => decide ((s.task_list i).task_status ≠ TASK_EMPTY)) =
      (List.finRange MAX_TASKS).countP
        (fun i => ¬ decide ((s.task_list i).task_status = TASK_EMPTY) = true) := by
    congr 1
    funext i
    simp
  rw [hlen, ← h] at hsum
  refine ⟨h, ?_, ?_, ?_, ?_⟩
  · intro hall
    rw [h, List.countP_eq_length.mpr (fun i _ => by simp [hall i]), hlen]
  · intro hall
    rw [h, List.countP_eq_zero.mpr (fun i _ => by simp [hall i])]
  · rw [hneg]; omega
  · omega

/-- Instance of C13 on the zeroed table and on a full table. -/
theorem task_get_count_counts_empty_witness :
    (∀ i, (scheduler.zero.task_list i).task_status = TASK_EMPTY) ∧
    task_get_count scheduler.zero = MAX_TASKS ∧
    (∀ i, ((add_all cvt_sat scheduler.zero seven_tasks).task_list i).task_status ≠ TASK_EMPTY) ∧
    task_get_count (add_all cvt_sat scheduler.zero seven_tasks) = 0 :=
  ⟨fun _ => rfl, (task_get_count_counts_empty scheduler.zero).2.1 (fun _ => rfl), by decide,
    (task_get_count_counts_empty (add_all cvt_sat scheduler.zero seven_tasks)).2.2.1
      (by decide)⟩

/-! ## Own ids and bounded delays -/

/-- C16: in every reachable state every occupied slot `i` has `id == i`, so no
two occupied slots share an id and `find_task` of the id of an occupied slot
returns that slot; `task_get_status` reads it, and `task_stop`, `task_resume`
and `task_delete` assign to it and to no other slot. -/
theorem occupied_slot_has_own_id (cvt : float → Nat) (body : task_t → List api_t)
    (s : scheduler) (hr : reachable cvt body s) :
    (∀ i, (s.task_list i).task_status ≠ TASK_EMPTY → (s.task_list i).id = i.val) ∧
    (∀ i j, (s.task_list i).task_status ≠ TASK_EMPTY →
      (s.task_list j).task_status ≠ TASK_EMPTY → (s.task_list i).id = (s.task_list j).id →
      i = j) ∧
    (∀ i, (s.task_list i).task_status ≠ TASK_EMPTY →
      find_task s (s.task_list i).id = some i ∧
      task_get_status s (s.task_list i).id = (s.task_list i).task_status ∧
      task_stop s (s.task_list i).id =
        s.upd i (fun e => { e with task_status := TASK_STOPPED }) ∧
      task_resume s (s.task_list i).id =
        s.upd i (fun e => { e with task_status := TASK_RUNNABLE }) ∧
      task_delete s (s.task_list i).id =
        s.upd i (fun e => { e with task := 0, task_status := TASK_EMPTY }) ∧
      (∀ j, j ≠ i →
        (task_stop s (s.task_list i).id).task_list j = s.task_list j ∧
        (task_resume s (s.task_list i).id).task_list j = s.task_list j ∧
        (task_delete s (s.task_list i).id).task_list j = s.task_list j)) := by
  have hok := reachable_table_ok cvt body s hr
  have hown : ∀ i, (s.task_list i).task_status ≠ TASK_EMPTY → (s.task_list i).id = i.val := by
    intro i hne
    rcases (hok i).1 with h | h
    · exact h
    · exact absurd h.2 hne
  refine ⟨hown, ?_, ?_⟩
  · intro i j hi hj hij
    rw [hown i hi, hown j hj] at hij
    exact Fin.ext hij
  · intro i hne
    have hlt : (s.task_list i).id < 256 := by
      rw [hown i hne]; have h7 : i.val < 7 := i.isLt; omega
    have hf : find_task s (s.task_list i).id = some i :=
      find_task_occupied s hok _ i hne (Nat.mod_eq_of_lt hlt).symm
    refine ⟨hf, task_get_status_eq s _ i hf, task_stop_eq s _ i hf, task_resume_eq s _ i hf,
      task_delete_eq s _ i hf, ?_⟩
    intro j hj
    rw [task_stop_eq s _ i hf, task_resume_eq s _ i hf, task_delete_eq s _ i hf]
    simp [upd_task_list, hj]

/-- Instance of C16 at the header example. -/
theorem occupied_slot_has_own_id_witness :
    reachable cvt_sat no_calls demo ∧
    (∀ i, (demo.task_list i).task_status ≠ TASK_EMPTY → (demo.task_list i).id = i.val) :=
  ⟨reachable_demo, (occupied_slot_has_own_id cvt_sat no_calls demo reachable_demo).1⟩

theorem f_to_u32_lt (cvt : float → Nat) (x : float) : f_to_u32 cvt x < 2 ^ 32 := by
  cases x with
  | fin n =>
    simp only [f_to_u32]
    split
    · assumption
    · exact Nat.mod_lt _ (by norm_num)
  | inf => exact Nat.mod_lt _ (by norm_num)
  | nan => exact Nat.mod_lt _ (by norm_num)

theorem delay_of_lt (cvt : float → Nat) (t : float) : delay_of cvt t < 2 ^ 32 :=
  f_to_u32_lt cvt _

theorem bounded_upd (s : scheduler) (h : bounded s) (i : Fin MAX_TASKS)
    (f : task_control_t → task_control_t)
    (hf : (f (s.task_list i)).delay ≤ (f (s.task_list i)).period ∧
      (f (s.task_list i)).period < 2 ^ 32) : bounded (s.upd i f) := by
  intro j
  rw [upd_task_list]
  split
  · exact hf
  · exact h j

theorem bounded_clock (s : scheduler) (h : bounded s) : bounded (task_scheduler_clock s) := by
  by_cases hr : s.task_scheduler_running = 0
  · rw [idle_clock s hr]; exact h
  · intro i
    rw [(task_scheduler_clock_eq s hr).1 i, ticked]
    have := h i
    split
    · exact ⟨by simp only; omega, this.2⟩
    · exact this

theorem bounded_run (cvt : float → Nat) (c : api_t) (s : scheduler) (h : bounded s) :
    bounded (c.run cvt s) := by
  cases c with
  | init ms => exact h
  | add task period =>
    show bounded (task_add cvt s task period).1
    by_cases he : ∃ j, (s.task_list j).task_status = TASK_EMPTY
    · obtain ⟨k, hk, hmin⟩ := exists_first_empty s he
      rw [task_add_at cvt s task period k hk hmin]
      exact bounded_upd s h k
        (fun _ => ⟨k.val, task, delay_of cvt (time_calc s.count_per_ms period),
          delay_of cvt (time_calc s.count_per_ms period), TASK_RUNNABLE⟩)
        ⟨le_refl _, delay_of_lt cvt _⟩
    · rw [task_add_none cvt s task period (fun j hj => he ⟨j, hj⟩)]
      exact h
  | delete id =>
    show bounded (task_delete s id)
    cases hf : find_task s id with
    | none => simpa [task_delete, hf] using h
    | some k =>
      rw [task_delete_eq s id k hf]
      exact bounded_upd s h k _ (h k)
  | stop id =>
    show bounded (task_stop s id)
    cases hf : find_task s id with
    | none => simpa [task_stop, hf] using h
    | some k =>
      rw [task_stop_eq s id k hf]
      exact bounded_upd s h k _ (h k)
  | resume id =>
    show bounded (task_resume s id)
    cases hf : find_task s id with
    | none => simpa [task_resume, hf] using h
    | some k =>
      rw [task_resume_eq s id k hf]
      exact bounded_upd s h k _ (h k)
  | scheduler_start => exact h
  | scheduler_stop => exact h
  | clock => exact bounded_clock s h

theorem bounded_code_of (cvt : float → Nat) (body : task_t → List api_t) (f : task_t)
    (s : scheduler) (h : bounded s) : bounded (code_of cvt body f s) := by
  unfold code_of
  generalize body f = cs
  induction cs generalizing s with
  | nil => exact h
  | cons c cs ih =>
    rw [List.foldl_cons]
    exact ih _ (bounded_run cvt c s h)

theorem bounded_dispatch_body (code : task_t → scheduler → scheduler)
    (hcode : ∀ f s, bounded s → bounded (code f s))
    (acc : scheduler × List call_t) (i : Fin MAX_TASKS) (h : bounded acc.1) :
    bounded (dispatch_body code acc i).1 := by
  unfold dispatch_body
  by_cases hd : due acc.1 i = true
  · simp only [hd, if_true, upd_upd]
    have h1 : bounded (acc.1.upd i (fun e => { e with task_status := TASK_RUNNING })) :=
      bounded_upd _ h i _ (h i)
    have h2 := hcode ((acc.1.upd i
      (fun e => { e with task_status := TASK_RUNNING })).task_list i).task _ h1
    exact bounded_upd _ h2 i _ ⟨le_refl _, (h2 i).2⟩
  · simp only [hd]
    exact h

theorem bounded_dispatch (code : task_t → scheduler → scheduler)
    (hcode : ∀ f s, bounded s → bounded (code f s))
    (s : scheduler) (h : bounded s) : bounded (task_dispatch code s).1 := by
  unfold task_dispatch
  split
  · have key : ∀ (l : List (Fin MAX_TASKS)) (acc : scheduler × List call_t),
        bounded acc.1 → bounded (l.foldl (dispatch_body code) acc).1 := by
      intro l
      induction l with
      | nil => intro acc ha; exact ha
      | cons a l ih =>
        intro acc ha
        rw [List.foldl_cons]
        exact ih _ (bounded_dispatch_body code hcode acc a ha)
    exact key _ _ h
  · exact h

theorem bounded_zero : bounded scheduler.zero := by
  intro i
  exact ⟨le_refl _, by show (0 : Nat) < 2 ^ 32; norm_num⟩

/-- C18: in every reachable state every slot has `delay <= period` (both within
`uint32_t`); every interface call and `task_dispatch` keep it so, and
`task_scheduler_clock` lowers a delay by one only when it is positive, so it
never wraps below zero. -/
theorem delay_within_period (cvt : float → Nat) (body : task_t → List api_t) (s : scheduler)
    (hr : reachable cvt body s) :
    (∀ i, (s.task_list i).delay ≤ (s.task_list i).period ∧ (s.task_list i).period < 2 ^ 32) ∧
    (∀ c : api_t, bounded (c.run cvt s)) ∧
    bounded (task_dispatch (code_of cvt body) s).1 ∧
    (∀ i, ((task_scheduler_clock s).task_list i).delay = (s.task_list i).delay ∨
      (0 < (s.task_list i).delay ∧
        ((task_scheduler_clock s).task_list i).delay + 1 = (s.task_list i).delay)) := by
  have hb : bounded s := by
    induction hr with
    | zero => exact bounded_zero
    | call s c _ ih => exact bounded_run cvt c s ih
    | dispatch s _ ih => exact bounded_dispatch _ (fun f t ht => bounded_code_of cvt body f t ht) s ih
  refine ⟨hb, fun c => bounded_run cvt c s hb,
    bounded_dispatch _ (fun f t ht => bounded_code_of cvt body f t ht) s hb, ?_⟩
  intro i
  by_cases hrun : s.task_scheduler_running = 0
  · rw [idle_clock s hrun]; exact Or.inl rfl
  · rw [(task_scheduler_clock_eq s hrun).1 i, ticked]
    split
    · next hc => exact Or.inr ⟨hc.2, by simp only; omega⟩
    · exact Or.inl rfl

/-- Instance of C18 at the header example after one tick. -/
theorem delay_within_period_witness :
    reachable cvt_sat no_calls (task_scheduler_clock demo) ∧
    (∀ i, ((task_scheduler_clock demo).task_list i).delay ≤
        ((task_scheduler_clock demo).task_list i).period ∧
      ((task_scheduler_clock demo).task_list i).period < 2 ^ 32) :=
  ⟨reachable.call _ api_t.clock reachable_demo,
    (delay_within_period cvt_sat no_calls (task_scheduler_clock demo)
      (reachable.call _ api_t.clock reachable_demo)).1⟩

/-! ## Tick conversion, unregistered ids and null tasks -/

/-- C17, evaluated on the code: after `task_scheduler_init( 1000 )` and
`task_stop( 0 )` no task has been registered, yet `task_get_count` is 6, not
`MAX_TASKS - 0`. -/
theorem empty_count_without_registration :
    reachable cvt_sat no_calls
      ([api_t.init 1000, api_t.stop 0].foldl (track_registered cvt_sat) (scheduler.zero, [])).1 ∧
    ([api_t.init 1000, api_t.stop 0].foldl (track_registered cvt_sat) (scheduler.zero, [])).2
      = [] ∧
    task_get_count
      ([api_t.init 1000, api_t.stop 0].foldl (track_registered cvt_sat) (scheduler.zero, [])).1
      = 6 ∧
    task_get_count
      ([api_t.init 1000, api_t.stop 0].foldl (track_registered cvt_sat) (scheduler.zero, [])).1
      ≠ MAX_TASKS -
        ([api_t.init 1000, api_t.stop 0].foldl (track_registered cvt_sat)
          (scheduler.zero, [])).2.length :=
  ⟨reachable.call _ (api_t.stop 0) reachable_fresh, rfl, by decide, by decide⟩

/-- C19, evaluated on the code: after `task_scheduler_init( 1000 )`,
`task_resume( 0 )` and `task_scheduler_start()`, with no `task_add` at all, slot 0
is runnable with a null task, and `task_dispatch` calls through the null
pointer. -/
theorem dispatch_calls_null :
    reachable cvt_sat no_calls (task_scheduler_start (task_resume fresh 0)) ∧
    (∀ i, (fresh.task_list i).task_status = TASK_EMPTY ∧ (fresh.task_list i).task = 0) ∧
    ((task_scheduler_start (task_resume fresh 0)).task_list 0).task_status = TASK_RUNNABLE ∧
    ((task_scheduler_start (task_resume fresh 0)).task_list 0).task = 0 ∧
    (task_dispatch (code_of cvt_sat no_calls)
      (task_scheduler_start (task_resume fresh 0))).2 = [(0, 0)] :=
  ⟨reachable.call _ api_t.scheduler_start (reachable.call _ (api_t.resume 0) reachable_fresh),
    fun _ => ⟨rfl, rfl⟩, by decide, by decide, by decide⟩

/-! ## Tasks that stop or delete themselves -/

/-- Whatever its task does, a due slot leaves the loop body of `task_dispatch`
runnable and with its delay reloaded from its period. -/
theorem dispatch_body_overwrites (code : task_t → scheduler → scheduler)
    (acc : scheduler × List call_t) (i : Fin MAX_TASKS) (hd : due acc.1 i = true) :
    ((dispatch_body code acc i).1.task_list i).task_status = TASK_RUNNABLE ∧
    ((dispatch_body code acc i).1.task_list i).delay =
      ((dispatch_body code acc i).1.task_list i).period := by
  unfold dispatch_body
  simp only [hd, if_true, upd_upd]
  simp [upd_task_list]

theorem find_task_running (t : scheduler) (ht : table_ok t) (i : Fin MAX_TASKS)
    (hne : (t.task_list i).task_status ≠ TASK_EMPTY) :
    table_ok (t.upd i (fun e => { e with task_status := TASK_RUNNING })) ∧
    find_task (t.upd i (fun e => { e with task_status := TASK_RUNNING })) i.val = some i := by
  have hid : (t.task_list i).id = i.val := by
    rcases (ht i).1 with h | h
    · exact h
    · exact absurd h.2 hne
  have h1 : table_ok (t.upd i (fun e => { e with task_status := TASK_RUNNING })) :=
    table_ok_upd t ht i _ (Or.inl hid) (fun hc => by simp at hc)
  refine ⟨h1, find_task_occupied _ h1 i.val i (by simp [upd_task_list]) ?_⟩
  have h7 : i.val < 7 := i.isLt
  simp only [upd_task_list, if_true]
  rw [hid]
  omega

/-! ## The tick conversion always rounds down -/

/-- The bit length is a lower bound: `2^(b-1) <= n` whenever `b >= 1`. -/
theorem bit_length_lower (fuel : Nat) :
    ∀ n : Nat, 0 < bit_length fuel n → 2 ^ (bit_length fuel n - 1) ≤ n := by
  induction fuel with
  | zero => intro n h; simp [bit_length] at h
  | succ f ih =>
    intro n h
    unfold bit_length at h ⊢
    by_cases hn : n = 0
    · simp [hn] at h
    · simp only [hn, if_false, Nat.add_sub_cancel]
      by_cases hb : 0 < bit_length f (n / 2)
      · have := ih (n / 2) hb
        have e : bit_length f (n / 2) = (bit_length f (n / 2) - 1) + 1 := by omega
        rw [e, pow_succ]
        omega
      · have e : bit_length f (n / 2) = 0 := by omega
        rw [e]
        simp
        omega

/-- With enough fuel the bit length is an upper bound: `n < 2^b`. -/
theorem bit_length_upper (fuel : Nat) :
    ∀ n : Nat, n ≤ fuel → n < 2 ^ bit_length fuel n := by
  induction fuel with
  | zero => intro n h; simp [bit_length]; omega
  | succ f ih =>
    intro n h
    unfold bit_length
    by_cases hn : n = 0
    · simp [hn]
    · simp only [hn, if_false]
      have := ih (n / 2) (by omega)
      rw [pow_succ]
      omega

/-- Shape of a rounded value: `n` itself when it fits `p` bits, otherwise the
multiple of `2^sh` just below `n` or the one just above. -/
theorem rne_cases (p n : Nat) :
    (bit_length n n ≤ p ∧ rne p n = n) ∨
    (p < bit_length n n ∧
      (rne p n = n / 2 ^ (bit_length n n - p) * 2 ^ (bit_length n n - p) ∨
       rne p n = (n / 2 ^ (bit_length n n - p) + 1) * 2 ^ (bit_length n n - p))) := by
  unfold rne
  by_cases h : bit_length n n ≤ p
  · left
    simp [h]
  · right
    refine ⟨by omega, ?_⟩
    simp only [h, if_false]
    split
    · right; rfl
    · left; rfl

theorem rne_fits24 (n : Nat) : fits24 (rne 24 n) := by
  rcases rne_cases 24 n with ⟨hb, he⟩ | ⟨hb, he | he⟩
  · rw [he]
    have hu := bit_length_upper n n (le_refl n)
    refine ⟨n, 0, ?_, by simp⟩
    calc n ≤ 2 ^ bit_length n n := hu.le
      _ ≤ 2 ^ 24 := Nat.pow_le_pow_right (by norm_num) hb
  · rw [he]
    refine ⟨n / 2 ^ (bit_length n n - 24), bit_length n n - 24, ?_, rfl⟩
    have hu := bit_length_upper n n (le_refl n)
    have e : bit_length n n = 24 + (bit_length n n - 24) := by omega
    rw [e, pow_add] at hu
    exact (Nat.div_lt_of_lt_mul (by rw [Nat.mul_comm]; exact hu)).le
  · rw [he]
    refine ⟨n / 2 ^ (bit_length n n - 24) + 1, bit_length n n - 24, ?_, rfl⟩
    have hu := bit_length_upper n n (le_refl n)
    have e : bit_length n n = 24 + (bit_length n n - 24) := by omega
    rw [e, pow_add] at hu
    exact Nat.div_lt_of_lt_mul (by rw [Nat.mul_comm]; exact hu)

theorem floor_mono (a b d : Nat) (h : a ≤ b) : a / d * d ≤ b / d * d :=
  Nat.mul_le_mul_right d (Nat.div_le_div_right h)

theorem floor_gt (a d : Nat) (hd : 0 < d) : a < a / d * d + d := by
  have h1 := Nat.div_add_mod a d
  have h2 := Nat.mod_lt a hd
  rw [Nat.mul_comm] at h1
  omega

/-- Adding at least 2 to a 24-bit value, rounding the sum to 24 bits and taking
the floor never ends below the value. -/
theorem le_floor_rne_add (n k : Nat) (hn : fits24 n) (hk : 2 * 2 ^ 64 ≤ k) :
    n ≤ rne 24 (n + k) / 2 ^ 64 * 2 ^ 64 := by
  have h64 : 0 < 2 ^ 64 := by norm_num
  rcases rne_cases 24 (n + k) with ⟨_, he⟩ | ⟨hb, hcase⟩
  · rw [he]
    have := floor_gt (n + k) (2 ^ 64) h64
    omega
  · generalize hsh : bit_length (n + k) (n + k) - 24 = sh at hcase
    have hL : (n + k) / 2 ^ sh * 2 ^ sh ≤ rne 24 (n + k) := by
      rcases hcase with he | he
      · rw [he]
      · rw [he]; exact Nat.mul_le_mul_right _ (Nat.le_succ _)
    refine le_trans ?_ (floor_mono _ _ _ hL)
    have hpos : 0 < 2 ^ sh := Nat.pow_pos (by norm_num)
    by_cases hs : sh ≤ 64
    · have hle : 2 ^ sh ≤ 2 ^ 64 := Nat.pow_le_pow_right (by norm_num) hs
      have h1 := floor_gt (n + k) (2 ^ sh) hpos
      have h2 := floor_gt ((n + k) / 2 ^ sh * 2 ^ sh) (2 ^ 64) h64
      omega
    · have hsplit : 2 ^ sh = 2 ^ (sh - 64) * 2 ^ 64 := by
        rw [← pow_add]; congr 1; omega
      have hmul : (n + k) / 2 ^ sh * 2 ^ sh / 2 ^ 64 * 2 ^ 64 = (n + k) / 2 ^ sh * 2 ^ sh := by
        rw [hsplit, ← Nat.mul_assoc, Nat.mul_div_cancel _ h64]
      rw [hmul]
      obtain ⟨c, e, hc, hce⟩ := hn
      by_cases hes : sh ≤ e
      · have he2 : 2 ^ e = 2 ^ (e - sh) * 2 ^ sh := by
          rw [← pow_add]; congr 1; omega
        have hn2 : n = c * 2 ^ (e - sh) * 2 ^ sh := by
          rw [hce, he2, Nat.mul_assoc]
        have hq : c * 2 ^ (e - sh) ≤ (n + k) / 2 ^ sh := by
          rw [Nat.le_div_iff_mul_le hpos, ← hn2]
          omega
        calc n = c * 2 ^ (e - sh) * 2 ^ sh := hn2
          _ ≤ (n + k) / 2 ^ sh * 2 ^ sh := Nat.mul_le_mul_right _ hq
      · have hbl := bit_length_lower (n + k) (n + k) (by omega)
        have hb1 : bit_length (n + k) (n + k) - 1 = 23 + sh := by omega
        rw [hb1, pow_add] at hbl
        have hq : 2 ^ 23 ≤ (n + k) / 2 ^ sh := by
          rw [Nat.le_div_iff_mul_le hpos]; exact hbl
        have hn3 : n ≤ 2 ^ 23 * 2 ^ sh := by
          rw [hce]
          have h1 : 2 ^ e * 2 ≤ 2 ^ sh := by
            rw [← pow_succ]; exact Nat.pow_le_pow_right (by norm_num) (by omega)
          calc c * 2 ^ e ≤ 2 ^ 24 * 2 ^ e := Nat.mul_le_mul_right _ hc
            _ = 2 ^ 23 * (2 ^ e * 2) := by ring
            _ ≤ 2 ^ 23 * 2 ^ sh := Nat.mul_le_mul_left _ h1
        exact le_trans hn3 (Nat.mul_le_mul_right _ hq)

/-- Every value of `time_calc` is a single-precision value: 1, a rounded
product, infinity or NaN. -/
theorem time_calc_fits (c : float) (period n : Nat) (h : time_calc c period = float.fin n) :
    fits24 n ∧ 2 ^ 64 ≤ n := by
  unfold time_calc at h
  simp only at h
  split at h
  · have h1 : float.ofNat 24 1 = float.fin (2 ^ 64) := by decide
    rw [h1] at h
    injection h with h
    rw [← h]
    exact ⟨⟨1, 64, by norm_num, by norm_num⟩, le_refl _⟩
  · next hlt =>
    have h1 : float.ofNat 24 1 = float.fin (2 ^ 64) := by decide
    rw [h1] at hlt
    cases hm : f64_mul (float.ofNat 53 (period % 2 ^ 32)) c with
    | fin x =>
      rw [hm] at h hlt
      simp only [f64_to_f32] at h hlt
      injection h with h
      rw [← h]
      refine ⟨rne_fits24 x, ?_⟩
      simp only [f_lt, decide_eq_true_eq] at hlt
      omega
    | inf => rw [hm] at h; simp [f64_to_f32] at h
    | nan => rw [hm] at h; simp [f64_to_f32] at h

/-- The test `time_calc > floor( time_calc + 0x5f )` of `task_add` is false for
every value `time_calc` can have, so `task_add` always takes `floor`. -/
theorem ceil_never_taken (c : float) (period : Nat) :
    f_lt (f_floor (f32_add (time_calc c period) (float.ofNat 24 0x5f))) (time_calc c period)
      = false := by
  have h95 : float.ofNat 24 0x5f = float.fin (95 * 2 ^ 64) := by decide
  rw [h95]
  cases ht : time_calc c period with
  | fin n =>
    obtain ⟨hfit, _⟩ := time_calc_fits c period n ht
    simp only [f32_add, f_floor, f_lt, decide_eq_false_iff_not, not_lt]
    exact le_floor_rne_add n (95 * 2 ^ 64) hfit (by norm_num)
  | inf => rfl
  | nan => rfl

theorem delay_of_floor (cvt : float → Nat) (c : float) (period : Nat) :
    delay_of cvt (time_calc c period) = f_to_u32 cvt (f_floor (time_calc c period)) := by
  unfold delay_of
  rw [ceil_never_taken]
  rfl

/-- Whenever the integral part of `time_calc` fits a `uint32_t`, the value that
`task_add` stores is that integral part, and it is at least 1. -/
theorem delay_of_in_range (cvt : float → Nat) (c : float) (period n : Nat)
    (h : time_calc c period = float.fin n) (hr : n / 2 ^ 64 < 2 ^ 32) :
    delay_of cvt (time_calc c period) = n / 2 ^ 64 ∧ 1 ≤ n / 2 ^ 64 := by
  rw [delay_of_floor, h]
  have h64 : 0 < 2 ^ 64 := by norm_num
  simp only [f_floor, f_to_u32, Nat.mul_div_cancel _ h64, hr, if_true, true_and]
  exact (Nat.le_div_iff_mul_le h64).mpr (by have := (time_calc_fits c period n h).2; omega)

theorem rne_pos (p n : Nat) (hp : 0 < p) (hn : 0 < n) : 0 < rne p n := by
  rcases rne_cases p n with ⟨_, he⟩ | ⟨hb, hcase⟩
  · rw [he]; exact hn
  · have hbl := bit_length_lower n n (by omega)
    have hle : 2 ^ (bit_length n n - p) ≤ n :=
      le_trans (Nat.pow_le_pow_right (by norm_num) (by omega)) hbl
    have hpos : 0 < 2 ^ (bit_length n n - p) := Nat.pow_pos (by norm_num)
    have hq : 1 ≤ n / 2 ^ (bit_length n n - p) := by
      rw [Nat.le_div_iff_mul_le hpos]; simpa using hle
    rcases hcase with he | he
    · rw [he]; exact Nat.mul_pos hq hpos
    · rw [he]; exact Nat.mul_pos (by omega) hpos

/-- After `task_scheduler_init` with a clock of at least 1 the factor
`count_per_ms` is a finite value. -/
theorem init_count_finite (s : scheduler) (clock : Nat) (h : 1 ≤ clock % 2 ^ 16) :
    ∃ a, (task_scheduler_init s clock).count_per_ms = float.fin a := by
  have hb : 0 < rne 24 (clock % 2 ^ 16 * 2 ^ FRAC) :=
    rne_pos 24 _ (by norm_num) (Nat.mul_pos h (Nat.pow_pos (by norm_num)))
  simp only [task_scheduler_init, float.ofNat, f32_div]
  rw [if_neg (by omega)]
  exact ⟨_, rfl⟩

/-- With a finite `count_per_ms` the value of `time_calc` is finite. -/
theorem time_calc_finite (a period : Nat) :
    ∃ n, time_calc (float.fin a) period = float.fin n := by
  have hm : ∃ x, f64_to_f32 (f64_mul (float.ofNat 53 (period % 2 ^ 32)) (float.fin a)) =
      float.fin x := ⟨_, rfl⟩
  obtain ⟨x, hx⟩ := hm
  unfold time_calc
  simp only [hx]
  split
  · exact ⟨_, rfl⟩
  · exact ⟨_, rfl⟩

/-- Registration into an empty slot stores `floor( time_calc )`, whatever the
period; when that is below `2^32` the stored period is at least 1. -/
theorem task_add_stores_floor (cvt : float → Nat) (s : scheduler) (cb : task_t)
    (period : Nat) (k : Fin MAX_TASKS) (hadd : (task_add cvt s cb period).2 = k.val) :
    ((task_add cvt s cb period).1.task_list k).period =
      f_to_u32 cvt (f_floor (time_calc s.count_per_ms period)) ∧
    ((task_add cvt s cb period).1.task_list k).delay =
      ((task_add cvt s cb period).1.task_list k).period ∧
    (∀ n, time_calc s.count_per_ms period = float.fin n → n / 2 ^ 64 < 2 ^ 32 →
      ((task_add cvt s cb period).1.task_list k).period = n / 2 ^ 64 ∧
      1 ≤ ((task_add cvt s cb period).1.task_list k).period) := by
  have hslot : (task_add cvt s cb period).1.task_list k =
      ⟨k.val, cb, delay_of cvt (time_calc s.count_per_ms period),
        delay_of cvt (time_calc s.count_per_ms period), TASK_RUNNABLE⟩ := by
    by_cases he : ∃ i, (s.task_list i).task_status = TASK_EMPTY
    · obtain ⟨m, hm, hmin⟩ := exists_first_empty s he
      rw [task_add_at cvt s cb period m hm hmin] at hadd ⊢
      have hmk : m = k := Fin.ext hadd
      subst hmk
      simp [upd_task_list]
    · rw [task_add_none cvt s cb period (fun i hi => he ⟨i, hi⟩)] at hadd
      have hk : k.val < 7 := k.isLt
      simp only at hadd
      omega
  rw [hslot]
  refine ⟨delay_of_floor cvt _ _, rfl, ?_⟩
  intro n hn hr
  obtain ⟨h1, h2⟩ := delay_of_in_range cvt _ _ n hn hr
  exact ⟨h1, by rw [h1]; exact h2⟩

/-- C14, evaluated on the code: with `task_scheduler_init( 3 )` and a period of
10 ms, `time_calc` is 3.33..., its fractional part is well above any small
epsilon, yet the test `time_calc > floor( time_calc + 0x5f )` is false (`0x5f` is
the integer 95), so `floor` is taken and the stored period and delay are 3,
where `ceil` would give 4.  The test is false for every clock and period: the
`ceil` branch is never taken. -/
theorem task_add_rounds_down :
    time_calc (task_scheduler_init scheduler.zero 3).count_per_ms 10 =
      float.fin (3 * 2 ^ 64 + 6148917623267524608) ∧
    2 ^ 64 / 4 < 6148917623267524608 ∧
    f_lt (f_floor (f32_add (time_calc (task_scheduler_init scheduler.zero 3).count_per_ms 10)
      (float.ofNat 24 0x5f)))
      (time_calc (task_scheduler_init scheduler.zero 3).count_per_ms 10) = false ∧
    (∀ cvt : float → Nat,
      (task_add cvt (task_scheduler_init scheduler.zero 3) 5 10).2 = 0 ∧
      ((task_add cvt (task_scheduler_init scheduler.zero 3) 5 10).1.task_list 0).period = 3 ∧
      ((task_add cvt (task_scheduler_init scheduler.zero 3) 5 10).1.task_list 0).delay = 3) ∧
    f_to_u32 cvt_sat
      (f_ceil (time_calc (task_scheduler_init scheduler.zero 3).count_per_ms 10)) = 4 ∧
    (∀ (cvt : float → Nat) (c : float) (period : Nat),
      f_lt (f_floor (f32_add (time_calc c period) (float.ofNat 24 0x5f))) (time_calc c period)
        = false ∧
      delay_of cvt (time_calc c period) = f_to_u32 cvt (f_floor (time_calc c period))) :=
  ⟨by decide, by decide, by decide, fun _ => ⟨rfl, rfl, rfl⟩, by decide,
    fun cvt c period => ⟨ceil_never_taken c period, delay_of_floor cvt c period⟩⟩

/-- C15, evaluated on the code: the stored period is 1 for `init( 1000 )` with
1000 ms (and with 0 ms) and 2 for `init( 500 )` with 1000 ms; but with
`init( 1 )` and 4294967295 ms `time_calc` is rounded to `2^32`, whose conversion
to `uint32_t` is undefined, so the stored period is whatever the target
delivers there, 0 on a target that keeps the low 32 bits.  For a clock of at
least 1 `time_calc` is finite, and whenever its integral part is below `2^32`
the stored period is at least 1 and the delay equals it. -/
theorem task_add_period_overflow :
    ((task_add cvt_sat (task_scheduler_init scheduler.zero 1000) 5 1000).1.task_list 0).period
      = 1 ∧
    ((task_add cvt_sat (task_scheduler_init scheduler.zero 500) 5 1000).1.task_list 0).period
      = 2 ∧
    ((task_add cvt_sat (task_scheduler_init scheduler.zero 1000) 5 0).1.task_list 0).period
      = 1 ∧
    time_calc (task_scheduler_init scheduler.zero 1).count_per_ms 4294967295 =
      float.fin (2 ^ 32 * 2 ^ 64) ∧
    (∀ cvt : float → Nat,
      (task_add cvt (task_scheduler_init scheduler.zero 1) 5 4294967295).2 = 0 ∧
      ((task_add cvt (task_scheduler_init scheduler.zero 1) 5 4294967295).1.task_list 0).period
        = cvt (float.fin (2 ^ 32 * 2 ^ 64)) % 2 ^ 32) ∧
    ((task_add cvt_wrap (task_scheduler_init scheduler.zero 1) 5 4294967295).1.task_list
      0).period = 0 ∧
    ((task_add cvt_wrap (task_scheduler_init scheduler.zero 1) 5 4294967295).1.task_list
      0).task_status = TASK_RUNNABLE ∧
    (∀ (s : scheduler) (clock period : Nat), 1 ≤ clock % 2 ^ 16 →
      ∃ n, time_calc (task_scheduler_init s clock).count_per_ms period = float.fin n) ∧
    (∀ (cvt : float → Nat) (s : scheduler) (cb : task_t) (period : Nat) (k : Fin MAX_TASKS)
      (n : Nat), (task_add cvt s cb period).2 = k.val →
      time_calc s.count_per_ms period = float.fin n → n / 2 ^ 64 < 2 ^ 32 →
      1 ≤ ((task_add cvt s cb period).1.task_list k).period ∧
      ((task_add cvt s cb period).1.task_list k).delay =
        ((task_add cvt s cb period).1.task_list k).period) :=
  ⟨by decide, by decide, by decide, by decide, fun _ => ⟨rfl, rfl⟩, by decide, by decide,
    fun s clock period h => by
      obtain ⟨a, ha⟩ := init_count_finite s clock h
      rw [ha]
      exact time_calc_finite a period,
    fun cvt s cb period k n hadd hn hr =>
      ⟨((task_add_stores_floor cvt s cb period k hadd).2.2 n hn hr).2,
        (task_add_stores_floor cvt s cb period k hadd).2.1⟩⟩

/-! ## The sweep of the dispatcher, slot by slot -/

theorem sweep_eq_foldl (code : task_t → scheduler → scheduler) (s : scheduler) :
    ∀ n, n ≤ MAX_TASKS →
      sweep code s n = ((List.finRange MAX_TASKS).take n).foldl (dispatch_body code) (s, []) := by
  intro n
  induction n with
  | zero => intro _; rfl
  | succ n ih =>
    intro hn
    have hlt : n < MAX_TASKS := hn
    have hlen : n < (List.finRange MAX_TASKS).length := by
      rw [List.length_finRange]; exact hlt
    rw [sweep, dif_pos hlt, ih (Nat.le_of_lt hlt), ← List.take_concat_get _ n hlen,
      List.concat_eq_append, List.foldl_append]
    simp only [List.foldl_cons, List.foldl_nil]
    congr 1
    simp

theorem task_dispatch_eq_sweep (code : task_t → scheduler → scheduler) (s : scheduler)
    (h : s.task_scheduler_running = 1) : task_dispatch code s = sweep code s MAX_TASKS := by
  rw [task_dispatch, if_pos h, sweep_eq_foldl code s MAX_TASKS (le_refl _),
    List.take_of_length_le (by rw [List.length_finRange])]

theorem sweep_succ (code : task_t → scheduler → scheduler) (s : scheduler)
    (j : Fin MAX_TASKS) :
    sweep code s (j.val + 1) = dispatch_body code (sweep code s j.val) j := by
  rw [sweep, dif_pos j.isLt]

/-- The loop body on a due slot, in terms of the state the task is called in. -/
theorem sweep_succ_due (code : task_t → scheduler → scheduler) (s : scheduler)
    (j : Fin MAX_TASKS) (hd : due (sweep code s j.val).1 j = true) :
    (sweep code s (j.val + 1)).1 =
      (code ((sweep code s j.val).1.task_list j).task (at_call code s j)).upd j
        (fun e => { e with delay := e.period, task_status := TASK_RUNNABLE }) := by
  rw [sweep_succ]
  unfold dispatch_body
  have hp : (((sweep code s j.val).1.upd j
      (fun e => { e with task_status := TASK_RUNNING })).task_list j).task =
      ((sweep code s j.val).1.task_list j).task := by simp [upd_task_list]
  simp only [hd, if_true, hp, upd_upd, at_call]

theorem sweep_succ_idle (code : task_t → scheduler → scheduler) (s : scheduler)
    (j : Fin MAX_TASKS) (hd : due (sweep code s j.val).1 j = false) :
    sweep code s (j.val + 1) = sweep code s j.val := by
  rw [sweep_succ]
  unfold dispatch_body
  simp [hd]

/-- A slot other than the one being handled is, after the loop body, what the
task called left of it. -/
theorem sweep_succ_other (code : task_t → scheduler → scheduler) (s : scheduler)
    (j m : Fin MAX_TASKS) (hm : m ≠ j) (hd : due (sweep code s j.val).1 j = true) :
    (sweep code s (j.val + 1)).1.task_list m =
      (code ((sweep code s j.val).1.task_list j).task (at_call code s j)).task_list m := by
  rw [sweep_succ_due code s j hd, upd_task_list, if_neg hm]

theorem at_call_other (code : task_t → scheduler → scheduler) (s : scheduler)
    (j m : Fin MAX_TASKS) (hm : m ≠ j) :
    (at_call code s j).task_list m = (sweep code s j.val).1.task_list m := by
  rw [at_call, upd_task_list, if_neg hm]

/-- Once slot `i` has had its turn, it stays as it is to the end of the sweep when
no task called later touches it. -/
theorem sweep_keeps_slot (code : task_t → scheduler → scheduler) (s : scheduler)
    (i : Fin MAX_TASKS)
    (hlater : ∀ j : Fin MAX_TASKS, i < j → due (sweep code s j.val).1 j = true →
      (code ((sweep code s j.val).1.task_list j).task (at_call code s j)).task_list i =
        (at_call code s j).task_list i) :
    ∀ n, i.val + 1 ≤ n → n ≤ MAX_TASKS →
      (sweep code s n).1.task_list i = (sweep code s (i.val + 1)).1.task_list i := by
  intro n hn
  induction n, hn using Nat.le_induction with
  | base => intro _; rfl
  | succ n hle ih =>
    intro hn7
    have hlt : n < MAX_TASKS := hn7
    have hij : i < (⟨n, hlt⟩ : Fin MAX_TASKS) := hle
    have hne : i ≠ (⟨n, hlt⟩ : Fin MAX_TASKS) := ne_of_lt hij
    rw [← ih (Nat.le_of_lt hlt)]
    by_cases hd : due (sweep code s n).1 ⟨n, hlt⟩ = true
    · have h1 := sweep_succ_other code s ⟨n, hlt⟩ i hne hd
      have h2 := hlater ⟨n, hlt⟩ hij hd
      have h3 := at_call_other code s ⟨n, hlt⟩ i hne
      simp only at h1 h2 h3
      rw [h1, h2, h3]
    · have hdf : due (sweep code s n).1 ⟨n, hlt⟩ = false := by simpa using hd
      have := sweep_succ_idle code s ⟨n, hlt⟩ hdf
      simp only at this
      rw [this]

/-- The calls made up to an index are still in the list at every later index. -/
theorem sweep_calls_grow (code : task_t → scheduler → scheduler) (s : scheduler)
    (c : call_t) (k : Nat) (hc : c ∈ (sweep code s k).2) :
    ∀ n, k ≤ n → c ∈ (sweep code s n).2 := by
  intro n hn
  induction n, hn using Nat.le_induction with
  | base => exact hc
  | succ n _ ih =>
    rw [sweep]
    split
    · next hlt =>
      unfold dispatch_body
      by_cases hd : due (sweep code s n).1 ⟨n, hlt⟩ = true
      · simp only [hd, if_true]
        exact List.mem_append_left _ ih
      · simp only [hd]
        exact ih
    · exact ih

/-- The call for a slot that is due at its turn is recorded. -/
theorem sweep_calls_due (code : task_t → scheduler → scheduler) (s : scheduler)
    (i : Fin MAX_TASKS) (hd : due (sweep code s i.val).1 i = true) :
    (i, ((sweep code s i.val).1.task_list i).task) ∈ (sweep code s (i.val + 1)).2 := by
  rw [sweep_succ]
  unfold dispatch_body
  simp [hd, upd_task_list]

/-- The slot whose turn it is, after the loop body, when its task applied `g` to
its own entry and changed nothing else. -/
theorem sweep_succ_own (code : task_t → scheduler → scheduler) (s : scheduler)
    (i : Fin MAX_TASKS) (g : task_control_t → task_control_t)
    (hd : due (sweep code s i.val).1 i = true)
    (hcall : code ((sweep code s i.val).1.task_list i).task (at_call code s i) =
      (at_call code s i).upd i g) :
    (sweep code s (i.val + 1)).1 = (sweep code s i.val).1.upd i (after_call g) := by
  rw [sweep_succ_due code s i hd, hcall, at_call, upd_upd, upd_upd]
  rfl

/-- When the task of slot `i` deletes itself and no other task called in the
sweep changes which slots are empty, the same slots are empty at every index of
the sweep as at its start. -/
theorem sweep_keeps_empty (code : task_t → scheduler → scheduler) (s : scheduler)
    (i : Fin MAX_TASKS)
    (hself : code ((sweep code s i.val).1.task_list i).task (at_call code s i) =
      task_delete (at_call code s i) i.val)
    (hown : find_task (at_call code s i) i.val = some i)
    (hempt : ∀ j : Fin MAX_TASKS, j ≠ i → due (sweep code s j.val).1 j = true →
      ∀ m : Fin MAX_TASKS,
        ((code ((sweep code s j.val).1.task_list j).task (at_call code s j)).task_list
          m).task_status = TASK_EMPTY ↔
        ((at_call code s j).task_list m).task_status = TASK_EMPTY) :
    ∀ n, n ≤ MAX_TASKS → ∀ m : Fin MAX_TASKS,
      ((sweep code s n).1.task_list m).task_status = TASK_EMPTY ↔
        (s.task_list m).task_status = TASK_EMPTY := by
  intro n
  induction n with
  | zero => intro _ m; rfl
  | succ n ih =>
    intro hn m
    have hlt : n < MAX_TASKS := hn
    have ih' := ih (Nat.le_of_lt hlt)
    obtain ⟨j, hj⟩ : ∃ j : Fin MAX_TASKS, j.val = n := ⟨⟨n, hlt⟩, rfl⟩
    subst hj
    by_cases hd : due (sweep code s j.val).1 j = true
    · have hrun : ((sweep code s j.val).1.task_list j).task_status = TASK_RUNNABLE :=
        ((due_iff _ _).mp hd).2
      have hjs : ¬ (s.task_list j).task_status = TASK_EMPTY := by
        rw [← ih' j, hrun]; decide
      by_cases hm : m = j
      · subst hm
        have : ((sweep code s (m.val + 1)).1.task_list m).task_status = TASK_RUNNABLE := by
          rw [sweep_succ_due code s m hd]
          simp [upd_task_list]
        rw [this]
        constructor
        · intro h; exact absurd h (by decide)
        · intro h; exact absurd h hjs
      · by_cases hji : j = i
        · subst hji
          have hcall : code ((sweep code s j.val).1.task_list j).task (at_call code s j) =
              (at_call code s j).upd j delete_entry := by
            rw [hself, task_delete_eq _ _ j hown]
            rfl
          rw [sweep_succ_own code s j delete_entry hd hcall, upd_task_list, if_neg hm]
          exact ih' m
        · rw [sweep_succ_other code s j m hm hd, hempt j hji hd m, at_call_other code s j m hm]
          exact ih' m
    · have hdf : due (sweep code s j.val).1 j = false := by simpa using hd
      rw [sweep_succ_idle code s j hdf]
      exact ih' m

/-- In a state that satisfies the table invariant, with tasks that keep it (as
tasks made of interface calls do), the id of a slot that is due at its turn
resolves to that slot when its task is called. -/
theorem own_id_resolves (cvt : float → Nat) (body : task_t → List api_t) (s : scheduler)
    (hr : reachable cvt body s) (i : Fin MAX_TASKS)
    (hd : due (sweep (code_of cvt body) s i.val).1 i = true) :
    find_task (at_call (code_of cvt body) s i) i.val = some i := by
  have hok : ∀ n, table_ok (sweep (code_of cvt body) s n).1 := by
    intro n
    induction n with
    | zero => exact reachable_table_ok cvt body s hr
    | succ n ih =>
      rw [sweep]
      split
      · exact table_ok_dispatch_body _ (fun f j t ht hp => code_of_ok cvt body f j t ht hp) _ _ ih
      · exact ih
  have hne : ((sweep (code_of cvt body) s i.val).1.task_list i).task_status ≠ TASK_EMPTY := by
    rw [((due_iff _ _).mp hd).2]; decide
  exact (find_task_running _ (hok i.val) i hne).2

theorem reachable_three_due (body : task_t → List api_t) : reachable cvt_sat body three_due :=
  reachable.call _ api_t.clock
    (reachable.call _ api_t.scheduler_start
      (reachable.call _ (api_t.add 7 1000)
        (reachable.call _ (api_t.add 6 1000)
          (reachable.call _ (api_t.add 5 1000)
            (reachable.call _ (api_t.init 1000) reachable.zero)))))

/-- C20, amended: callbacks being functions on the scheduler state.  When the
sweep of `task_dispatch` finds slot `i` due at its turn, and no task called later
in the sweep touches slot `i`, then the call for slot `i` is made and at return
slot `i` is runnable with `delay == period`, whatever its task did.  If the task
called `task_stop( i )` on its own id (the id resolving to slot `i`), the entry
is the one the sweep found, reloaded: the stop is overwritten.  If it called
`task_delete( i )`, the entry is the one the sweep found with a null task,
reloaded and runnable; and `task_get_count` is what it was before the dispatch
provided no other task called in the sweep changes which slots are empty.  In a
reachable state, with tasks made of interface calls, the id of a due slot always
resolves to it. -/
theorem own_stop_or_delete_overwritten (code : task_t → scheduler → scheduler)
    (s : scheduler) (hrun : s.task_scheduler_running = 1) (i : Fin MAX_TASKS)
    (hdue : due (sweep code s i.val).1 i = true)
    (hlater : ∀ j : Fin MAX_TASKS, i < j → due (sweep code s j.val).1 j = true →
      (code ((sweep code s j.val).1.task_list j).task (at_call code s j)).task_list i =
        (at_call code s j).task_list i) :
    (i, ((sweep code s i.val).1.task_list i).task) ∈ (task_dispatch code s).2 ∧
    ((task_dispatch code s).1.task_list i).task_status = TASK_RUNNABLE ∧
    ((task_dispatch code s).1.task_list i).delay =
      ((task_dispatch code s).1.task_list i).period ∧
    (code ((sweep code s i.val).1.task_list i).task (at_call code s i) =
        task_stop (at_call code s i) i.val →
      find_task (at_call code s i) i.val = some i →
      (task_dispatch code s).1.task_list i =
        { (sweep code s i.val).1.task_list i with
          delay := ((sweep code s i.val).1.task_list i).period
          task_status := TASK_RUNNABLE }) ∧
    (code ((sweep code s i.val).1.task_list i).task (at_call code s i) =
        task_delete (at_call code s i) i.val →
      find_task (at_call code s i) i.val = some i →
      (task_dispatch code s).1.task_list i =
        { (sweep code s i.val).1.task_list i with
          task := 0
          delay := ((sweep code s i.val).1.task_list i).period
          task_status := TASK_RUNNABLE } ∧
      ((∀ j : Fin MAX_TASKS, j ≠ i → due (sweep code s j.val).1 j = true →
          ∀ m : Fin MAX_TASKS,
            ((code ((sweep code s j.val).1.task_list j).task (at_call code s j)).task_list
              m).task_status = TASK_EMPTY ↔
            ((at_call code s j).task_list m).task_status = TASK_EMPTY) →
        task_get_count (task_dispatch code s).1 = task_get_count s)) ∧
    (∀ (cvt : float → Nat) (body : task_t → List api_t), code = code_of cvt body →
      reachable cvt body s → find_task (at_call code s i) i.val = some i) := by
  have hfin : (task_dispatch code s).1.task_list i = (sweep code s (i.val + 1)).1.task_list i := by
    rw [task_dispatch_eq_sweep code s hrun]
    exact sweep_keeps_slot code s i hlater MAX_TASKS i.isLt (le_refl _)
  have hover : ((sweep code s (i.val + 1)).1.task_list i).task_status = TASK_RUNNABLE ∧
      ((sweep code s (i.val + 1)).1.task_list i).delay =
        ((sweep code s (i.val + 1)).1.task_list i).period := by
    rw [sweep_succ]
    exact dispatch_body_overwrites code _ i hdue
  refine ⟨?_, by rw [hfin]; exact hover.1, by rw [hfin]; exact hover.2, ?_, ?_, ?_⟩
  · rw [task_dispatch_eq_sweep code s hrun]
    exact sweep_calls_grow code s _ _ (sweep_calls_due code s i hdue) MAX_TASKS i.isLt
  · intro hself hown
    have hcall : code ((sweep code s i.val).1.task_list i).task (at_call code s i) =
        (at_call code s i).upd i stop_entry := by
      rw [hself, task_stop_eq _ _ i hown]
      rfl
    rw [hfin, sweep_succ_own code s i stop_entry hdue hcall, upd_task_list, if_pos rfl]
    rfl
  · intro hself hown
    have hcall : code ((sweep code s i.val).1.task_list i).task (at_call code s i) =
        (at_call code s i).upd i delete_entry := by
      rw [hself, task_delete_eq _ _ i hown]
      rfl
    refine ⟨?_, ?_⟩
    · rw [hfin, sweep_succ_own code s i delete_entry hdue hcall, upd_task_list, if_pos rfl]
      rfl
    · intro hempt
      have hpat := sweep_keeps_empty code s i hself hown hempt MAX_TASKS (le_refl _)
      rw [task_dispatch_eq_sweep code s hrun, task_get_count_eq, task_get_count_eq]
      apply List.countP_congr
      intro m _
      simp only [decide_eq_true_eq]
      exact hpat m
  · intro cvt body hc hr
    subst hc
    exact own_id_resolves cvt body s hr i hdue

/-- Instance of C20: in `three_due` the task of slot 0 deletes itself and the task
of slot 1 stops slot 2; at return slot 0 is runnable with a null task and its
delay reloaded, and `task_get_count` is what it was.  When the task of slot 0
stops itself instead, slot 0 is at return the entry the sweep found, reloaded. -/
theorem own_stop_or_delete_overwritten_witness :
    three_due.task_scheduler_running = 1 ∧
    due (sweep (code_of cvt_sat body_stop_other) three_due 0).1 0 = true ∧
    (∀ j : Fin MAX_TASKS, 0 < j →
      due (sweep (code_of cvt_sat body_stop_other) three_due j.val).1 j = true →
      (code_of cvt_sat body_stop_other
        ((sweep (code_of cvt_sat body_stop_other) three_due j.val).1.task_list j).task
        (at_call (code_of cvt_sat body_stop_other) three_due j)).task_list 0 =
        (at_call (code_of cvt_sat body_stop_other) three_due j).task_list 0) ∧
    find_task (at_call (code_of cvt_sat body_stop_other) three_due 0) 0 = some 0 ∧
    ((task_dispatch (code_of cvt_sat body_stop_other) three_due).1.task_list 2).task_status
      = TASK_STOPPED ∧
    (task_dispatch (code_of cvt_sat body_stop_other) three_due).1.task_list 0 =
      ⟨0, 0, 1, 1, TASK_RUNNABLE⟩ ∧
    (task_dispatch (code_of cvt_sat body_stop_other) three_due).1.task_list 0 =
      { (sweep (code_of cvt_sat body_stop_other) three_due 0).1.task_list 0 with
        task := 0
        delay := ((sweep (code_of cvt_sat body_stop_other) three_due 0).1.task_list 0).period
        task_status := TASK_RUNNABLE } ∧
    task_get_count (task_dispatch (code_of cvt_sat body_stop_other) three_due).1 =
      task_get_count three_due ∧
    ((task_dispatch (code_of cvt_sat body_stop_stop) three_due).1.task_list 2).task_status
      = TASK_STOPPED ∧
    (task_dispatch (code_of cvt_sat body_stop_stop) three_due).1.task_list 0 =
      { (sweep (code_of cvt_sat body_stop_stop) three_due 0).1.task_list 0 with
        delay := ((sweep (code_of cvt_sat body_stop_stop) three_due 0).1.task_list 0).period
        task_status := TASK_RUNNABLE } ∧
    (task_dispatch (code_of cvt_sat body_stop_stop) three_due).1.task_list 0 =
      ⟨0, 5, 1, 1, TASK_RUNNABLE⟩ :=
  ⟨by decide, by decide, by decide, by decide, by decide, by decide,
    ((own_stop_or_delete_overwritten (code_of cvt_sat body_stop_other) three_due (by decide) 0
      (by decide) (by decide)).2.2.2.2.1 rfl (by decide)).1,
    ((own_stop_or_delete_overwritten (code_of cvt_sat body_stop_other) three_due (by decide) 0
      (by decide) (by decide)).2.2.2.2.1 rfl (by decide)).2 (by decide),
    by decide,
    (own_stop_or_delete_overwritten (code_of cvt_sat body_stop_stop) three_due (by decide) 0
      (by decide) (by decide)).2.2.2.1 rfl (by decide),
    by decide⟩

/-- C20 as stated fails: in `three_due` the task of slot 0 deletes itself and the
task of slot 1 deletes slot 2.  No task called after slot 0 touches slot 0, slot
0 ends runnable with a null task, but `task_get_count` goes from 4 to 5. -/
theorem own_delete_count_changes :
    reachable cvt_sat body_delete_other three_due ∧
    three_due.task_scheduler_running = 1 ∧
    due (sweep (code_of cvt_sat body_delete_other) three_due 0).1 0 = true ∧
    (∀ t, code_of cvt_sat body_delete_other
      ((sweep (code_of cvt_sat body_delete_other) three_due 0).1.task_list 0).task t =
        task_delete t 0) ∧
    find_task (at_call (code_of cvt_sat body_delete_other) three_due 0) 0 = some 0 ∧
    (∀ j : Fin MAX_TASKS, 0 < j →
      due (sweep (code_of cvt_sat body_delete_other) three_due j.val).1 j = true →
      (code_of cvt_sat body_delete_other
        ((sweep (code_of cvt_sat body_delete_other) three_due j.val).1.task_list j).task
        (at_call (code_of cvt_sat body_delete_other) three_due j)).task_list 0 =
        (at_call (code_of cvt_sat body_delete_other) three_due j).task_list 0) ∧
    (task_dispatch (code_of cvt_sat body_delete_other) three_due).2 = [(0, 5), (1, 6)] ∧
    (task_dispatch (code_of cvt_sat body_delete_other) three_due).1.task_list 0 =
      ⟨0, 0, 1, 1, TASK_RUNNABLE⟩ ∧
    task_get_count three_due = 4 ∧
    task_get_count (task_dispatch (code_of cvt_sat body_delete_other) three_due).1 = 5 ∧
    task_get_count (task_dispatch (code_of cvt_sat body_delete_other) three_due).1 ≠
      task_get_count three_due :=
  ⟨reachable_three_due _, by decide, by decide, fun _ => rfl, by decide, by decide, by decide,
    by decide, by decide, by decide, by decide⟩

end Scheduler
